import Mathlib

/-!
Shallow embedding of the simulation core of the isometric-city theme-park
builder (Rust sources under src/wasm/src), together with theorems settling
the specification claims.

Modelling conventions:
* Rust machine integers are modelled as Nat / Int, with explicit reductions
  modulo 2^64 (u64) or 2^32 (wasm32 usize) where wrap-around matters.
* Rust floating point values (f32 / f64) are modelled as exact rationals:
  decimal literals denote their exact decimal value, and float casts are
  the identity.  All claims settled here are structural and robust to this
  choice; the one float constant that is not a decimal literal
  (std::f32::consts::PI) is embedded as the exact rational value of the
  f32 nearest to pi.
* Rust Vec and HashSet (used only through contains / insert) are modelled
  as lists; structs are structures; enums are inductives.
* Code that would panic (index out of bounds) is modelled with Option.
* The building catalog (src/wasm/src/game/building.rs) is a data table the
  spec declares out of scope; only representative variants of each
  simulation-relevant class (food, shop, ride, scenery) are embedded, with
  the class predicates classifying each embedded variant exactly as the
  source does.
-/

namespace IsoCity

/-! ## Machine-arithmetic helpers -/

/-- 2^64, the modulus of Rust u64 arithmetic. -/
def U64 : Nat := 2 ^ 64

/-- 2^32, the modulus of wasm32 usize arithmetic. -/
def U32 : Nat := 2 ^ 32

/-- Truncation of a rational toward zero, as in Rust float-to-int casts. -/
def ratTrunc (q : ℚ) : Int := if 0 ≤ q then ⌊q⌋ else ⌈q⌉

/-- Rust saturating cast from a float (modelled as ℚ) to wasm32 usize. -/
def ratToUsize (q : ℚ) : Nat := min (ratTrunc q).toNat (U32 - 1)

/-- Rust saturating cast from a float (modelled as ℚ) to i32. -/
def ratToI32 (q : ℚ) : Int := max (-(2 ^ 31)) (min (ratTrunc q) (2 ^ 31 - 1))

/-- Rust remainder on floats (sign of the dividend), modelled on ℚ. -/
def fmod (a m : ℚ) : ℚ := a - m * ratTrunc (a / m)

/-- The enumerate-and-map loop of the Rust iter_mut().enumerate()
patterns, carrying the running index. -/
def map_with_index {α β : Type} (f : Nat → α → β) : Nat → List α → List β
  | _, [] => []
  | i, a :: l => f i a :: map_with_index f (i + 1) l

/-- Option-valued traversal of a list (the update loops whose body can
panic). -/
def traverse_option {α β : Type} (f : α → Option β) : List α → Option (List β)
  | [] => some []
  | a :: l => (f a).bind fun b => (traverse_option f l).map fun bs => b :: bs

/-- Rust cast of an i32 to u64 (sign extension), as a value below 2^64. -/
def intToU64 (x : Int) : Nat := (x % (U64 : Int)).toNat

/-- One round of the xorshift64 generator from GameState::random. -/
def xorshift64 (s : Nat) : Nat :=
  let s0 := s % U64
  let s1 := (Nat.xor s0 (s0 <<< 13)) % U64
  let s2 := Nat.xor s1 (s1 >>> 7)
  (Nat.xor s2 (s2 <<< 17)) % U64

/-! ## Data model: terrain, buildings, tiles (game/tile.rs, game/building.rs) -/

/-- Terrain type for a tile. -/
inductive Terrain
  | grass
  | water
  | sand
  | rock
deriving DecidableEq

/-- Representative variants of the (out-of-scope) building catalog, three
from each simulation-relevant class plus scenery and empty. -/
inductive BuildingType
  | empty
  | treeOak
  | flowersBed
  | foodHotdog
  | foodBurger
  | drinkSoda
  | shopSouvenir
  | shopToys
  | restroom
  | rideCarousel
  | rideTeacups
  | rideFerrisClassic
deriving DecidableEq

/-- BuildingType::is_food, restricted to the embedded variants; each is
classified exactly as in the source list. -/
def BuildingType.is_food : BuildingType → Bool
  | .foodHotdog | .foodBurger | .drinkSoda => true
  | _ => false

/-- BuildingType::is_shop (the source list includes Restroom). -/
def BuildingType.is_shop : BuildingType → Bool
  | .shopSouvenir | .shopToys | .restroom => true
  | _ => false

/-- BuildingType::is_ride. -/
def BuildingType.is_ride : BuildingType → Bool
  | .rideCarousel | .rideTeacups | .rideFerrisClassic => true
  | _ => false

/-- A placed building. -/
structure Building where
  building_type : BuildingType
deriving DecidableEq

/-- A single tile on the game grid. -/
structure Tile where
  x : Int
  y : Int
  terrain : Terrain
  building : Option Building
  path : Bool
  queue : Bool
  queue_ride_id : Option String
  has_coaster_track : Bool
  coaster_track_id : Option String
  elevation : Int
deriving DecidableEq

/-- Tile::new. -/
def Tile.new (x y : Int) : Tile :=
  { x := x, y := y, terrain := .grass, building := none, path := false,
    queue := false, queue_ride_id := none, has_coaster_track := false,
    coaster_track_id := none, elevation := 0 }

/-- Tile::is_walkable: guests can walk on path or queue tiles. -/
def Tile.is_walkable (t : Tile) : Bool := t.path || t.queue

/-- Grid coordinates, as in the Rust (i32, i32) pairs. -/
abbrev Cell := Int × Int

/-- The grid, indexed grid[y][x] as in the source. -/
abbrev Grid := List (List Tile)

/-- Lookup of the tile at a coordinate; none when out of bounds. -/
def tileAt (g : Grid) (c : Cell) : Option Tile :=
  if c.1 < 0 ∨ c.2 < 0 then none
  else (g.get? c.2.toNat).bind fun row => row.get? c.1.toNat

/-- Walkability of the tile at a coordinate (false off the grid). -/
def walkableAt (g : Grid) (c : Cell) : Bool :=
  ((tileAt g c).map Tile.is_walkable).getD false

/-- The bounds check nx >= 0 && ny >= 0 && nx < grid_size && ny < grid_size. -/
def inBoundsB (n : Nat) (c : Cell) : Bool :=
  decide (0 ≤ c.1 ∧ c.1 < (n : Int) ∧ 0 ≤ c.2 ∧ c.2 < (n : Int))

/-! ## Routing engine (sim/pathfinding.rs) -/

/-- The fixed 4-direction expansion order of the BFS. -/
def dirs : List Cell := [(1, 0), (-1, 0), (0, 1), (0, -1)]

/-- One candidate-neighbor step of the BFS expansion: the accumulator holds
the entries pushed so far and the visited set; a neighbor is enqueued when
in bounds, unvisited and walkable, exactly as in the source loop body. -/
def bfs_expand (g : Grid) (cur : Cell) (p : List Cell)
    (acc : List (Cell × List Cell) × List Cell) (d : Cell) :
    List (Cell × List Cell) × List Cell :=
  let n : Cell := (cur.1 + d.1, cur.2 + d.2)
  if ¬ inBoundsB g.length n then acc
  else if n ∈ acc.2 then acc
  else if ¬ walkableAt g n then acc
  else (acc.1 ++ [(n, p ++ [cur])], acc.2 ++ [n])

/-- The BFS work loop of find_path.  Each queue entry carries the list of
cells strictly before it on its discovery path.  The fuel argument only
makes the recursion structural: find_path supplies enough fuel for the
loop to run to completion (proved below). -/
def bfs_loop (g : Grid) (target : Cell) (max_steps : Nat) :
    Nat → List (Cell × List Cell) → List Cell → List Cell
  | 0, _, _ => []
  | _ + 1, [], _ => []
  | fuel + 1, (c, p) :: rest, visited =>
    if max_steps ≤ p.length then bfs_loop g target max_steps fuel rest visited
    else if c = target then p ++ [target]
    else
      let e := dirs.foldl (bfs_expand g c p) ([], visited)
      bfs_loop g target max_steps fuel (rest ++ e.1) e.2

/-- find_path: BFS from start to target over walkable tiles. -/
def find_path (g : Grid) (start target : Cell) (max_steps : Nat) :
    List Cell :=
  if start = target then [target]
  else bfs_loop g target max_steps (g.length * g.length + 2) [(start, [])]
    [start]

/-- find_path_to_building: try the four orthogonal neighbors of the
building tile in order, returning the first non-empty path. -/
def find_path_to_building (g : Grid) (start building_pos : Cell)
    (max_steps : Nat) : List Cell :=
  (dirs.foldl (fun acc d =>
    match acc with
    | some pth => some pth
    | none =>
      let adj : Cell := (building_pos.1 + d.1, building_pos.2 + d.2)
      if inBoundsB g.length adj && walkableAt g adj then
        let pth := find_path g start adj max_steps
        if pth ≠ [] then some pth else none
      else none) none).getD []

/-! ## Coaster data model (game/coaster.rs) -/

/-- Track direction. -/
inductive TrackDirection
  | north
  | east
  | south
  | west
deriving DecidableEq

/-- Track piece type. -/
inductive TrackPieceType
  | straightFlat
  | turnLeftFlat
  | turnRightFlat
  | slopeUpSmall
  | slopeUpMedium
  | slopeDownSmall
  | slopeDownMedium
  | loopVertical
  | corkscrew
  | station
  | liftHill
  | brakes
deriving DecidableEq

/-- Support strut style. -/
inductive StrutStyle
  | wood
  | metal
deriving DecidableEq

/-- Coaster type. -/
inductive CoasterType
  | woodenClassic
  | woodenTwister
  | steelSitDown
  | steelInverted
  | steelFloorless
  | steelWing
  | steelFlying
  | mineTrain
  | waterCoaster
  | launchCoaster
  | hyperCoaster
  | gigaCoaster
deriving DecidableEq

/-- CoasterType::default_primary_color. -/
def CoasterType.default_primary_color : CoasterType → String
  | .woodenClassic => "#8B4513"
  | .woodenTwister => "#A0522D"
  | .steelSitDown => "#dc2626"
  | .steelInverted => "#2563eb"
  | .steelFloorless => "#059669"
  | .steelWing => "#ea580c"
  | .steelFlying => "#0891b2"
  | .mineTrain => "#92400e"
  | .waterCoaster => "#0ea5e9"
  | .launchCoaster => "#e11d48"
  | .hyperCoaster => "#0d9488"
  | .gigaCoaster => "#4f46e5"

/-- CoasterType::default_secondary_color. -/
def CoasterType.default_secondary_color : CoasterType → String
  | .woodenClassic => "#D2691E"
  | .woodenTwister => "#CD853F"
  | .steelSitDown => "#fbbf24"
  | .steelInverted => "#60a5fa"
  | .steelFloorless => "#34d399"
  | .steelWing => "#fb923c"
  | .steelFlying => "#22d3ee"
  | .mineTrain => "#fcd34d"
  | .waterCoaster => "#38bdf8"
  | .launchCoaster => "#fda4af"
  | .hyperCoaster => "#5eead4"
  | .gigaCoaster => "#a5b4fc"

/-- CoasterType::default_support_color. -/
def CoasterType.default_support_color : CoasterType → String
  | .woodenClassic => "#5C3317"
  | .woodenTwister => "#654321"
  | .steelSitDown => "#374151"
  | .steelInverted => "#1e3a8a"
  | .steelFloorless => "#064e3b"
  | .steelWing => "#7c2d12"
  | .steelFlying => "#164e63"
  | .mineTrain => "#451a03"
  | .waterCoaster => "#0c4a6e"
  | .launchCoaster => "#9f1239"
  | .hyperCoaster => "#134e4a"
  | .gigaCoaster => "#312e81"

/-- A single track piece. -/
structure TrackPiece where
  piece_type : TrackPieceType
  direction : TrackDirection
  start_height : Int
  end_height : Int
  chain_lift : Bool
  strut_style : StrutStyle
deriving DecidableEq

/-- TrackPiece::new: start and end heights derive from the piece type. -/
def TrackPiece.new (piece_type : TrackPieceType) (direction : TrackDirection)
    (height : Int) : TrackPiece :=
  let hs : Int × Int :=
    match piece_type with
    | .slopeUpSmall | .liftHill => (height, height + 1)
    | .slopeUpMedium => (height, height + 2)
    | .slopeDownSmall => (height, height - 1)
    | .slopeDownMedium => (height, height - 2)
    | _ => (height, height)
  { piece_type := piece_type, direction := direction, start_height := hs.1,
    end_height := hs.2, chain_lift := false, strut_style := .metal }

/-- Coaster color scheme. -/
structure CoasterColor where
  primary : String
  secondary : String
  supports : String
deriving DecidableEq

/-- Train dispatch state. -/
inductive TrainState
  | loading
  | dispatching
  | running
  | braking
deriving DecidableEq

/-- A single train car. -/
structure TrainCar where
  track_progress : ℚ
  velocity : ℚ
deriving DecidableEq

/-- TrainCar::new. -/
def TrainCar.new (progress : ℚ) : TrainCar :=
  { track_progress := progress, velocity := 0 }

/-- A train on the coaster. -/
structure Train where
  id : Nat
  cars : List TrainCar
  state : TrainState
  state_timer : ℚ
deriving DecidableEq

/-- Train::new: car i starts at start_progress - i * 0.18, wrapped to be
nonnegative. -/
def Train.new (id : Nat) (num_cars : Nat) (start_progress track_len : ℚ) :
    Train :=
  let car_spacing : ℚ := 0.18
  let cars := (List.range num_cars).map fun i =>
    let progress := start_progress - (i : ℚ) * car_spacing
    let progress :=
      if progress < 0 then fmod (fmod progress track_len + track_len) track_len
      else progress
    TrainCar.new progress
  { id := id, cars := cars, state := .loading, state_timer := 5 }

/-- A complete coaster. -/
structure Coaster where
  id : String
  name : String
  coaster_type : CoasterType
  color : CoasterColor
  track_tiles : List Cell
  track_pieces : List TrackPiece
  station_tile : Cell
  trains : List Train
  operating : Bool
  excitement : ℚ
  intensity : ℚ
  nausea : ℚ
deriving DecidableEq

/-- Coaster::new. -/
def Coaster.new (id name : String) (coaster_type : CoasterType) : Coaster :=
  { id := id, name := name, coaster_type := coaster_type,
    color := { primary := coaster_type.default_primary_color,
               secondary := coaster_type.default_secondary_color,
               supports := coaster_type.default_support_color },
    track_tiles := [], track_pieces := [], station_tile := (0, 0),
    trains := [], operating := false, excitement := 0, intensity := 0,
    nausea := 0 }

/-- Coaster::is_complete: a closed loop needs at least 4 tiles with every
consecutive pair (wrapping around) at Manhattan distance exactly 1. -/
def Coaster.is_complete (c : Coaster) : Bool :=
  if c.track_tiles.length < 4 then false
  else
    let len := c.track_tiles.length
    (List.range len).all fun i =>
      let a := c.track_tiles.getD i (0, 0)
      let b := c.track_tiles.getD ((i + 1) % len) (0, 0)
      let dx := (a.1 - b.1).natAbs
      let dy := (a.2 - b.2).natAbs
      decide ((dx = 1 ∧ dy = 0) ∨ (dx = 0 ∧ dy = 1))

/-- Coaster::add_trains: evenly space count trains around the track. -/
def Coaster.add_trains (c : Coaster) (count cars_per_train : Nat) : Coaster :=
  let track_len : ℚ := c.track_pieces.length
  if track_len < 1 then c
  else
    { c with trains := (List.range count).map (fun i =>
        Train.new i cars_per_train
          (fmod ((i : ℚ) * track_len / (count : ℚ)) track_len) track_len) }

/-! ## Guest data model (game/guest.rs) -/

/-- Guest behavioral state. -/
inductive GuestState
  | entering
  | walking
  | queuing
  | riding
  | eating
  | shopping
  | leaving
  | exitingBuilding
deriving DecidableEq

/-- Direction a guest is facing. -/
inductive Direction
  | north
  | east
  | south
  | west
deriving DecidableEq

/-- Kind of destination a guest can target. -/
inductive TargetKind
  | ride
  | food
  | shop
deriving DecidableEq

/-- Guest color palette; the catalog arrays of color strings are modelled
by the chosen index into each array (already reduced by its length). -/
structure GuestColors where
  skin : Nat
  shirt : Nat
  pants : Nat
  hat : Nat
deriving DecidableEq

/-- A guest in the park. -/
structure Guest where
  id : Nat
  tile_x : Int
  tile_y : Int
  target_x : Int
  target_y : Int
  progress : ℚ
  direction : Direction
  state : GuestState
  last_state : GuestState
  target_building_id : Option String
  target_building_kind : Option TargetKind
  path : List Cell
  path_index : Nat
  queue_ride_id : Option String
  queue_timer : ℚ
  hunger : ℚ
  thirst : ℚ
  bathroom : ℚ
  energy : ℚ
  happiness : ℚ
  nausea : ℚ
  cash : Int
  total_spent : Int
  time_in_park : ℚ
  decision_cooldown : ℚ
  colors : GuestColors
  has_hat : Bool
  walk_offset : ℚ
deriving DecidableEq

/-- The exact rational value of std::f32::consts::PI. -/
def pi_f32 : ℚ := 13176795 / 4194304

/-! ## Game state (game/state.rs); the UI-only selected_tool field and the
renderer-side tick counter of lib.rs are omitted. -/

/-- Main game state. -/
structure GameState where
  grid : Grid
  grid_size : Nat
  tick : Nat
  speed : Nat
  year : Nat
  month : Nat
  day : Nat
  hour : Nat
  minute : ℚ
  guests : List Guest
  coasters : List Coaster
  active_coaster_id : Option String
  cash : Int
  park_rating : Int
  rng_state : Nat
  next_guest_id : Nat
deriving DecidableEq

/-- GameState::random: one xorshift64 round; the mutated state divided by
u64::MAX is the returned sample (always in the interval from 0 to 1). -/
def GameState.random (st : GameState) : ℚ × GameState :=
  let s := xorshift64 st.rng_state
  (((s : ℚ) / ((U64 : ℚ) - 1)), { st with rng_state := s })

/-- GameState::advance_time: calendar advance with minute, hour, day,
month and year rollovers. -/
def GameState.advance_time (st : GameState) : GameState :=
  let st := { st with tick := (st.tick + 1) % U32 }
  let is_daytime := st.hour ≥ 7 ∧ st.hour < 18
  let minute_increment : ℚ := if is_daytime then 0.25 else 3
  let st := { st with minute := st.minute + minute_increment }
  if st.minute ≥ 60 then
    let st := { st with minute := st.minute - 60, hour := st.hour + 1 }
    if st.hour ≥ 24 then
      let st := { st with hour := 0, day := st.day + 1 }
      if st.day > 30 then
        let st := { st with day := 1, month := st.month + 1 }
        if st.month > 12 then { st with month := 1, year := (st.year + 1) % U32 }
        else st
      else st
    else st
  else st

/-- GameState::next_guest_id (the method; the struct field of the same
name holds the counter). -/
def GameState.next_guest_id_fn (st : GameState) : Nat × GameState :=
  (st.next_guest_id, { st with next_guest_id := (st.next_guest_id + 1) % U32 })

/-- The path flag of the tile at a coordinate (false off the grid). -/
def pathAt (g : Grid) (c : Cell) : Bool :=
  ((tileAt g c).map Tile.path).getD false

/-- GameState::find_entrance_tiles: path tiles on the four grid edges,
collected per index in the source order. -/
def GameState.find_entrance_tiles (st : GameState) : List Cell :=
  let size : Int := st.grid_size
  (List.range st.grid_size).flatMap fun i =>
    (if pathAt st.grid ((0 : Int), (i : Int)) then [((0 : Int), (i : Int))] else []) ++
    (if pathAt st.grid (size - 1, (i : Int)) then [(size - 1, (i : Int))] else []) ++
    (if pathAt st.grid ((i : Int), (0 : Int)) then [((i : Int), (0 : Int))] else []) ++
    (if pathAt st.grid ((i : Int), size - 1) then [((i : Int), size - 1)] else [])

/-- GameState::update_park_rating: unchanged when no guest exists,
otherwise ten times the mean happiness capped at 1000, cast to i32. -/
def GameState.update_park_rating (st : GameState) : GameState :=
  if st.guests.isEmpty then st
  else
    let avg := (st.guests.map Guest.happiness).sum / (st.guests.length : ℚ)
    { st with park_rating := ratToI32 (min (avg * 10) 1000) }

/-- Guest::new: a fresh guest at an entrance tile, drawing thirteen
samples from the state generator in source order. -/
def Guest.new (id : Nat) (entrance_x entrance_y : Int) (grid_size : Nat)
    (st : GameState) : Guest × GameState :=
  let size : Int := grid_size
  let tgt : (Int × Int) × Direction :=
    if entrance_x = 0 then ((entrance_x + 1, entrance_y), .south)
    else if entrance_x = size - 1 then ((entrance_x - 1, entrance_y), .north)
    else if entrance_y = 0 then ((entrance_x, entrance_y + 1), .west)
    else if entrance_y = size - 1 then ((entrance_x, entrance_y - 1), .east)
    else ((entrance_x, entrance_y + 1), .south)
  let p_r1 := st.random
  let r1 := p_r1.1
  let st := p_r1.2
  let p_r2 := st.random
  let r2 := p_r2.1
  let st := p_r2.2
  let p_r3 := st.random
  let r3 := p_r3.1
  let st := p_r3.2
  let p_r4 := st.random
  let r4 := p_r4.1
  let st := p_r4.2
  let skin_idx := ratToUsize (r1 * 7)
  let shirt_idx := ratToUsize (r2 * 9)
  let pants_idx := ratToUsize (r3 * 6)
  let hat_idx := ratToUsize (r4 * 7)
  let p_r5 := st.random
  let r5 := p_r5.1
  let st := p_r5.2
  let p_r6 := st.random
  let r6 := p_r6.1
  let st := p_r6.2
  let p_r7 := st.random
  let r7 := p_r7.1
  let st := p_r7.2
  let p_r8 := st.random
  let r8 := p_r8.1
  let st := p_r8.2
  let p_r9 := st.random
  let r9 := p_r9.1
  let st := p_r9.2
  let p_r10 := st.random
  let r10 := p_r10.1
  let st := p_r10.2
  let p_r11 := st.random
  let r11 := p_r11.1
  let st := p_r11.2
  let p_r12 := st.random
  let r12 := p_r12.1
  let st := p_r12.2
  let p_r13 := st.random
  let r13 := p_r13.1
  let st := p_r13.2
  ({ id := id, tile_x := entrance_x, tile_y := entrance_y,
     target_x := tgt.1.1, target_y := tgt.1.2, progress := 0,
     direction := tgt.2, state := .entering, last_state := .entering,
     target_building_id := none, target_building_kind := none,
     path := [], path_index := 0, queue_ride_id := none, queue_timer := 0,
     hunger := 20 + r5 * 30, thirst := 20 + r6 * 30,
     bathroom := 10 + r7 * 20, energy := 80 + r8 * 20,
     happiness := 70 + r9 * 30, nausea := 0,
     cash := 30 + ratToI32 (r10 * 70), total_spent := 0,
     time_in_park := 0, decision_cooldown := 20 + r11 * 40,
     colors := { skin := skin_idx % 7, shirt := shirt_idx % 9,
                 pants := pants_idx % 6, hat := hat_idx % 7 },
     has_hat := r12 > 0.7, walk_offset := r13 * pi_f32 * 2 }, st)

/-! ## Guest AI (sim/guest_ai.rs) -/

/-- The per-kind building predicate of find_destination. -/
def kind_pred (target_kind : TargetKind) (bt : BuildingType) : Bool :=
  match target_kind with
  | .food => bt.is_food
  | .shop => bt.is_shop
  | .ride => bt.is_ride

/-- The row-major candidate scan of find_destination: every grid tile
carrying a building of the requested kind, with its "x,y" id string. -/
def destination_candidates (st : GameState) (target_kind : TargetKind) :
    List (Cell × String) :=
  (List.range st.grid_size).flatMap fun y =>
    (List.range st.grid_size).filterMap fun x =>
      match tileAt st.grid ((x : Int), (y : Int)) with
      | some t =>
        match t.building with
        | some b =>
          if kind_pred target_kind b.building_type then
            some (((x : Int), (y : Int)), toString x ++ "," ++ toString y)
          else none
        | none => none
      | none => none

/-- The index selector of find_destination: a fresh two-step xorshift of a
hash of the start coordinates, truncated to wasm32 usize, reduced by the
candidate count. -/
def destination_hash_index (start : Cell) (len : Nat) : Nat :=
  let h0 := (intToU64 start.1 * 7919 % U64 + intToU64 start.2 * 6271 % U64) % U64
  let h1 := (Nat.xor h0 (h0 <<< 13)) % U64
  let h2 := Nat.xor h1 (h1 >>> 7)
  h2 % U32 % len

/-- find_destination: scan the grid row-major for buildings of the
requested kind, then select one by an xorshift hash of the start
coordinates (the simulation generator is not consulted). -/
def find_destination (st : GameState) (start : Cell)
    (target_kind : TargetKind) : Option (Cell × String) :=
  let candidates := destination_candidates st target_kind
  if candidates = [] then none
  else
    some (candidates.getD (destination_hash_index start candidates.length)
      (((0 : Int), (0 : Int)), ""))

/-- Modelled from the spec: section 4.3 requires the destination to be
selected uniformly at random among all matching structures using the
single seeded simulation generator of section 9 (GameState::random), which
the source does not do.  The uniform draw maps the sample r in the unit
interval to index (r * count) as usize, modulo the count, as every other
uniform list pick in this codebase does, and threads the advanced
generator state. -/
def find_destination_spec_uniform (st : GameState) (target_kind : TargetKind) :
    Option ((Cell × String) × GameState) :=
  let candidates := destination_candidates st target_kind
  if candidates = [] then none
  else
    let r := st.random
    some (candidates.getD
      (ratToUsize (r.1 * (candidates.length : ℚ)) % candidates.length)
      (((0 : Int), (0 : Int)), ""), r.2)

/-- assign_path: install a waypoint list, skipping a leading waypoint
equal to the current tile, and aim at the first pending waypoint. -/
def assign_path (g0 : Guest) (pth : List Cell) : Guest :=
  let g := { g0 with path := pth, path_index := 0 }
  if g.path = [] then g
  else
    let g := if g.path.headD (0, 0) = (g.tile_x, g.tile_y) then
        { g with path_index := 1 } else g
    if g.path_index < g.path.length then
      let n := g.path.getD g.path_index (0, 0)
      { g with target_x := n.1, target_y := n.2,
               path_index := g.path_index + 1 }
    else g

/-- The per-kind arrival fee (RIDE_FEE, FOOD_FEE, SHOP_FEE). -/
def target_fee : TargetKind → Int
  | .ride => 15
  | .food => 12
  | .shop => 10
/-- The needs, happiness, nausea and cooldown drift at the top of
update_guest. -/
def guest_drift (g0 : Guest) (delta_time : ℚ) : Guest :=
  let g := { g0 with time_in_park := g0.time_in_park + delta_time }
  let g := { g with hunger := min (g.hunger + delta_time * 0.01) 100 }
  let g := { g with thirst := min (g.thirst + delta_time * 0.015) 100 }
  let g := { g with energy := max (g.energy - delta_time * 0.005) 0 }
  let happiness_change : ℚ :=
    (if g.hunger > 70 then -0.1 else 0) +
    (if g.thirst > 70 then -0.15 else 0) +
    (if g.nausea > 50 then -0.1 else 0)
  let g := { g with
    happiness := min (max (g.happiness + happiness_change * delta_time) 0) 100 }
  let g := { g with nausea := max (g.nausea - delta_time * 0.02) 0 }
  { g with decision_cooldown := max (g.decision_cooldown - delta_time) 0 }

/-- The Queuing and Riding branch of update_guest. -/
def guest_queue_step (g1 : Guest) (st0 : GameState) (delta_time : ℚ)
    (previous_state : GuestState) : Guest × GameState :=
  let g := { g1 with queue_timer := g1.queue_timer - delta_time }
  if g.queue_timer ≤ 0 then
    if g.state = GuestState.queuing then
      let p_r := st0.random
      let r := p_r.1
      let st := p_r.2
      let g := { g with
        state := GuestState.riding, queue_timer := 10 + r * 20,
        happiness := min (g.happiness + 8) 100 }
      ({ g with last_state := previous_state }, st)
    else
      let p_r := st0.random
      let r := p_r.1
      let st := p_r.2
      let g := { g with
        state := GuestState.walking, queue_ride_id := none,
        target_building_id := none, target_building_kind := none,
        nausea := min (g.nausea + 5 + r * 5) 100 }
      ({ g with last_state := previous_state }, st)
  else ({ g with last_state := previous_state }, st0)

/-- The Eating and Shopping branch of update_guest. -/
def guest_activity_step (g1 : Guest) (st0 : GameState) (delta_time : ℚ)
    (previous_state : GuestState) : Guest × GameState :=
  let g := { g1 with queue_timer := g1.queue_timer - delta_time }
  if g.queue_timer ≤ 0 then
    let g :=
      if g.state = GuestState.eating then
        { g with
          hunger := max (g.hunger - 60) 0,
          thirst := max (g.thirst - 40) 0,
          happiness := min (g.happiness + 6) 100 }
      else { g with happiness := min (g.happiness + 4) 100 }
    let g := { g with
      state := GuestState.walking, target_building_id := none,
      target_building_kind := none }
    ({ g with last_state := previous_state }, st0)
  else ({ g with last_state := previous_state }, st0)

/-- The idle destination-seeking step of update_guest. -/
def guest_seek (g : Guest) (st0 : GameState) : Guest × GameState :=
  if (g.state = GuestState.walking ∨ g.state = GuestState.entering) ∧
      g.path = [] ∧ g.target_building_id = none ∧ g.decision_cooldown ≤ 0 then
    let p_roll := st0.random
    let roll := p_roll.1
    let st := p_roll.2
    let is_hungry := g.hunger > 50 ∨ g.thirst > 50
    let target_kind : TargetKind :=
      if is_hungry then (if roll < 0.7 then .food else .shop)
      else if roll < 0.4 then .shop
      else if roll < 0.8 then .ride
      else .food
    let found : Guest × GameState :=
      match find_destination st (g.tile_x, g.tile_y) target_kind with
      | some (pos, building_id) =>
        let pth := find_path_to_building st.grid (g.tile_x, g.tile_y) pos 200
        if pth ≠ [] then
          (assign_path { g with
            target_building_id := some building_id,
            target_building_kind := some target_kind,
            state := GuestState.walking } pth, st)
        else (g, st)
      | none => (g, st)
    let p_r2 := found.2.random
    let r2 := p_r2.1
    let st2 := p_r2.2
    ({ found.1 with decision_cooldown := 60 + r2 * 90 }, st2)
  else (g, st0)

/-- The arrival step of update_guest: pay the kind-specific fee and enter
the activity, or abandon the destination when cash is short. -/
def guest_arrive (g : Guest) (st : GameState) (kind : TargetKind)
    (previous_state : GuestState) : Guest × GameState :=
  let fee := target_fee kind
  if g.cash ≥ fee then
    let g := { g with
      cash := g.cash - fee,
      total_spent := g.total_spent + fee }
    let st := { st with cash := st.cash + fee }
    let p_r := st.random
    let r := p_r.1
    let st := p_r.2
    let g :=
      match kind with
      | TargetKind.ride =>
        { g with state := GuestState.queuing, queue_timer := 30 + r * 60 }
      | TargetKind.food =>
        { g with state := GuestState.eating, queue_timer := 8 + r * 12 }
      | TargetKind.shop =>
        { g with state := GuestState.shopping, queue_timer := 6 + r * 10 }
    ({ g with
       path := [], path_index := 0,
       last_state := previous_state }, st)
  else
    ({ g with
       target_building_id := none,
       target_building_kind := none, state := GuestState.walking,
       decision_cooldown := 30, path := [], path_index := 0,
       last_state := previous_state }, st)

/-- The wander step of update_guest: pick one random adjacent walkable
tile, or stay put when none exists. -/
def guest_wander (g1 : Guest) (st0 : GameState) (grid_size : Nat)
    (previous_state : GuestState) : Guest × GameState :=
  let g := { g1 with
    state := GuestState.walking, decision_cooldown := 0,
    path := ([] : List Cell), path_index := 0 }
  let valid_dirs := dirs.filter fun d =>
    inBoundsB grid_size (g.tile_x + d.1, g.tile_y + d.2) &&
    walkableAt st0.grid (g.tile_x + d.1, g.tile_y + d.2)
  if valid_dirs ≠ [] then
    let p_r := st0.random
    let r := p_r.1
    let st := p_r.2
    let idx := ratToUsize (r * (valid_dirs.length : ℚ)) % valid_dirs.length
    let d := valid_dirs.getD idx (0, 0)
    ({ g with
       target_x := g.tile_x + d.1, target_y := g.tile_y + d.2,
       last_state := previous_state }, st)
  else ({ g with last_state := previous_state }, st0)

/-- The movement step of update_guest: advance the interpolation, snap to
the target tile, then follow the path, arrive, or wander. -/
def guest_move (g1 : Guest) (st : GameState) (grid_size : Nat)
    (previous_state : GuestState) : Guest × GameState :=
  if g1.state = GuestState.walking ∨ g1.state = GuestState.entering then
    let speed : ℚ := 0.02
    let g := { g1 with progress := g1.progress + speed }
    if g.progress ≥ 1 then
      let g := { g with
        tile_x := g.target_x, tile_y := g.target_y, progress := 0 }
      if g.path ≠ [] ∧ g.path_index < g.path.length then
        let n := g.path.getD g.path_index (0, 0)
        let dx := n.1 - g.tile_x
        let dy := n.2 - g.tile_y
        let dir : Direction :=
          if dx > 0 then Direction.south
          else if dx < 0 then Direction.north
          else if dy > 0 then Direction.west
          else Direction.east
        ({ g with
           target_x := n.1, target_y := n.2,
           path_index := g.path_index + 1, direction := dir,
           last_state := previous_state }, st)
      else
        match g.target_building_kind with
        | some kind => guest_arrive g st kind previous_state
        | none => guest_wander g st grid_size previous_state
    else ({ g with last_state := previous_state }, st)
  else ({ g1 with last_state := previous_state }, st)

/-- update_guest: the per-tick update of one guest (needs and happiness
drift, activity timers, destination decisions, movement, arrival fees and
wandering), threading the game state for grid reads, cash credits and
generator draws. -/
def update_guest (g0 : Guest) (st0 : GameState) (delta_time : ℚ)
    (grid_size : Nat) : Guest × GameState :=
  let previous_state := g0.state
  let g := guest_drift g0 delta_time
  match g.state with
  | .queuing | .riding => guest_queue_step g st0 delta_time previous_state
  | .eating | .shopping => guest_activity_step g st0 delta_time previous_state
  | _ =>
    let seeky := guest_seek g st0
    guest_move seeky.1 seeky.2 grid_size previous_state

/-- The remove-update-reinsert pass of update_guests over a snapshot of
guest ids. -/
def update_guests_pass (grid_size : Nat) : List Nat → GameState → GameState
  | [], st => st
  | id :: ids, st =>
    match st.guests.findIdx? (fun gg => gg.id = id) with
    | some idx =>
      match st.guests.get? idx with
      | some guest =>
        let st1 := { st with guests := st.guests.eraseIdx idx }
        let upd := update_guest guest st1 1 grid_size
        update_guests_pass grid_size ids
          { upd.2 with guests := upd.2.guests ++ [upd.1] }
      | none => update_guests_pass grid_size ids st
    | none => update_guests_pass grid_size ids st

/-- update_guests: update every guest (by id snapshot), then recompute the
park rating. -/
def update_guests (st : GameState) : GameState :=
  (update_guests_pass st.grid_size (st.guests.map Guest.id) st).update_park_rating

/-- The entry fee charged at spawn (ENTRY_FEE). -/
def entry_fee : Int := 20

/-- The final admission step of spawn_guests: the candidate is added (and
the entry fee moved to the park) only when it can afford the entry fee;
otherwise the state is returned untouched. -/
def admit_guest (st : GameState) (guest : Guest) : GameState :=
  if guest.cash ≥ entry_fee then
    let guest := { guest with
      cash := guest.cash - entry_fee,
      total_spent := guest.total_spent + entry_fee }
    { st with cash := st.cash + entry_fee, guests := st.guests ++ [guest] }
  else st

/-- The body of spawn_guests after a successful roll: pick a uniformly
random entrance tile, build the candidate guest, and try to admit it. -/
def spawn_attempt (st : GameState) : GameState :=
  let entrances := st.find_entrance_tiles
  if entrances ≠ [] then
    let picked := st.random
    let idx := ratToUsize (picked.1 * (entrances.length : ℚ)) % entrances.length
    let e := entrances.getD idx (0, 0)
    let got := picked.2.next_guest_id_fn
    let made := Guest.new got.1 e.1 e.2 got.2.grid_size got.2
    admit_guest made.2 made.1
  else st

/-- spawn_guests: gated on opening hours and the 500-guest cap, then a
probabilistic roll, then the spawn attempt. -/
def spawn_guests (st : GameState) : GameState :=
  if st.hour < 9 ∨ st.hour > 21 then st
  else if st.guests.length ≥ 500 then st
  else
    let base_rate : ℚ := 0.02
    let rating_bonus : ℚ := (st.park_rating : ℚ) / 1000 * 0.03
    let peak_bonus : ℚ := if st.hour ≥ 11 ∧ st.hour ≤ 15 then 0.02 else 0
    let spawn_chance := base_rate + rating_bonus + peak_bonus
    let rolled := st.random
    if rolled.1 < spawn_chance then spawn_attempt rolled.2
    else rolled.2

/-! ## Train physics (sim/trains.rs) -/

/-- SPEED_BOOSTS. -/
def speed_boosts : List ℚ := [1, 1.5, 2, 2.5]

/-- Rust saturating cast of an integer float-floor to wasm32 usize. -/
def intToUsize (i : Int) : Nat := min i.toNat (U32 - 1)

/-- Advance one car by the given base velocity, halved on a vertical-loop
piece (the Dispatching and Running car loops). -/
def train_car_advance (track_pieces : List TrackPiece) (track_len : ℚ)
    (base_velocity : ℚ) (car : TrainCar) : TrainCar :=
  let track_idx := intToUsize ⌊car.track_progress⌋ % track_pieces.length
  let piece := track_pieces.getD track_idx (TrackPiece.new .straightFlat .north 0)
  let velocity :=
    if piece.piece_type = TrackPieceType.loopVertical then base_velocity * 0.5
    else base_velocity
  { track_progress := fmod (car.track_progress + velocity * 1) track_len,
    velocity := velocity }

/-- The per-train body of update_trains: timer decrement, the dispatch
state machine, then the trailing-car spacing pass.  None models the Rust
panic of indexing cars[0] on an empty car list. -/
def update_train (speed_boost : ℚ) (track_pieces : List TrackPiece)
    (track_len : ℚ) (station_idx : Nat) (coaster_id_len : Nat)
    (train0 : Train) : Option Train :=
  let delta : ℚ := 1
  let car_spacing : ℚ := 0.18
  let train := { train0 with state_timer := train0.state_timer - delta }
  let stepped : Option Train :=
    match train.state with
    | .loading =>
      let train :=
        if train.state_timer ≤ 0 then
          { train with state := .dispatching, state_timer := 2 }
        else train
      some { train with cars := map_with_index (fun i _ =>
        { track_progress := fmod ((station_idx : ℚ) + (i : ℚ) * car_spacing) track_len,
          velocity := 0 }) 0 train.cars }
    | .dispatching =>
      let train :=
        if train.state_timer ≤ 0 then
          { train with state := .running, state_timer := 0 }
        else train
      let base_velocity := (0.02 + (1 - train.state_timer / 2) * 0.04) * speed_boost
      some { train with cars :=
               train.cars.map (train_car_advance track_pieces track_len base_velocity) }
    | .running =>
      match train.cars.head? with
      | none => none
      | some car0 =>
        let lead_progress := fmod car0.track_progress track_len
        let distance_to_station :=
          fmod ((station_idx : ℚ) - lead_progress + track_len) track_len
        let train :=
          if distance_to_station < 3 ∧ distance_to_station > 0.5 then
            { train with state := .braking }
          else train
        let base_velocity := 0.08 * speed_boost
        some { train with cars :=
                 train.cars.map (train_car_advance track_pieces track_len base_velocity) }
    | .braking =>
      match train.cars.head? with
      | none => none
      | some car0 =>
        let lead_progress := fmod car0.track_progress track_len
        let distance_to_station :=
          fmod ((station_idx : ℚ) - lead_progress + track_len) track_len
        let train :=
          if distance_to_station ≤ 0.5 ∨ distance_to_station > track_len - 1 then
            { train with
              state := .loading,
              state_timer := 5 + fmod (coaster_id_len : ℚ) 3 }
          else train
        let velocity := 0.03 * speed_boost
        some { train with cars := train.cars.map fun car =>
          { track_progress := fmod (car.track_progress + velocity * delta) track_len,
            velocity := velocity } }
  stepped.map fun train =>
    match train.cars.head? with
    | none => train
    | some car0 =>
      let adjust := fun (i : Nat) (car : TrainCar) =>
        if i = 0 then car
        else { car with
               track_progress :=
                 fmod (car0.track_progress + (i : ℚ) * car_spacing) track_len }
      { train with cars := map_with_index adjust 0 train.cars }

/-- The per-coaster body of update_trains: skip non-operating or trackless
coasters, locate the station index, update every train. -/
def update_coaster (speed_boost : ℚ) (c : Coaster) : Option Coaster :=
  if ¬ c.operating ∨ c.track_pieces = [] then some c
  else
    let track_len : ℚ := c.track_pieces.length
    if track_len < 1 then some c
    else
      let station_idx := (c.track_tiles.findIdx? fun t =>
        decide (t.1 = c.station_tile.1 ∧ t.2 = c.station_tile.2)).getD 0
      (traverse_option
        (update_train speed_boost c.track_pieces track_len station_idx
          c.id.length) c.trains).map
        fun trains => { c with trains := trains }

/-- update_trains: update every coaster with the global speed boost. -/
def update_trains (st : GameState) : Option GameState :=
  let speed_boost := speed_boosts.getD (st.speed % 4) 1
  (traverse_option (update_coaster speed_boost) st.coasters).map
    fun coasters => { st with coasters := coasters }

/-! ## Tick driver (lib.rs) -/

/-- One simulation tick: skipped entirely when paused, otherwise calendar,
guests, spawn, trains, in that fixed order. -/
def tick (st : GameState) : Option GameState :=
  if st.speed = 0 then some st
  else update_trains (spawn_guests (update_guests st.advance_time))

/-- n iterated ticks. -/
def tickN (st : GameState) : Nat → Option GameState
  | 0 => some st
  | n + 1 => (tickN st n).bind tick

/-! ## Specification-side notions -/

/-- One admissible BFS step: a 4-neighbor that is in bounds and walkable
(exactly the condition under which find_path expands into a cell). -/
def StepTo (g : Grid) (a b : Cell) : Prop :=
  (∃ d ∈ dirs, b = (a.1 + d.1, a.2 + d.2)) ∧ inBoundsB g.length b = true ∧
    walkableAt g b = true

/-- Reachability in exactly n admissible steps; the source cell itself is
not required to be walkable, matching find_path. -/
inductive Reaches (g : Grid) (a : Cell) : Nat → Cell → Prop
  | refl : Reaches g a 0 a
  | tail {n b c} : Reaches g a n b → StepTo g b c → Reaches g a (n + 1) c

/-- A waypoint list that starts at s and takes admissible steps. -/
def ChainFrom (g : Grid) (s : Cell) (l : List Cell) : Prop :=
  l.head? = some s ∧ List.Chain' (StepTo g) l

/-- The cells carried by the BFS queue entries. -/
def entry_cells (q : List (Cell × List Cell)) : List Cell := q.map Prod.fst

/-- The number of distinct in-bounds cells in the visited list. -/
def in_card (n : Nat) (v : List Cell) : Nat :=
  ((v.filter (inBoundsB n)).toFinset).card

/-- The BFS termination measure: every loop iteration decreases it by
exactly one. -/
def bfs_measure (n : Nat) (q : List (Cell × List Cell)) (v : List Cell) : Nat :=
  q.length + (n * n + 1 - in_card n v)

/-- The BFS loop invariant: every queue entry carries a valid discovery
chain of minimal length, entry lengths are sorted and spread over at most
two layers, queue cells are visited, the visited list is duplicate-free
and contains the start, and every visited cell is either still queued,
fully expanded, or was dropped by the step cutoff. -/
structure BfsInv (g : Grid) (s : Cell) (m : Nat)
    (q : List (Cell × List Cell)) (visited : List Cell) : Prop where
  chains : ∀ e ∈ q, ChainFrom g s (e.2 ++ [e.1])
  minimal : ∀ e ∈ q, ∀ j, Reaches g s j e.1 → e.2.length ≤ j
  sorted : (q.map fun e => e.2.length).Sorted (· ≤ ·)
  spread : ∀ e ∈ q, ∀ e0, q.head? = some e0 → e.2.length ≤ e0.2.length + 1
  qsubv : ∀ e ∈ q, e.1 ∈ visited
  nodupv : visited.Nodup
  sinv : s ∈ visited
  vreach : ∀ v ∈ visited, v ∈ entry_cells q ∨
    (∀ w, StepTo g v w → w ∈ visited) ∨ (∀ j, Reaches g s j v → m ≤ j)

/-- The cyclic successor of a train dispatch state. -/
def train_state_next : TrainState → TrainState
  | .loading => .dispatching
  | .dispatching => .running
  | .running => .braking
  | .braking => .loading

/-- The range invariant on the five needs and happiness. -/
def needs_in_range (g : Guest) : Prop :=
  0 ≤ g.hunger ∧ g.hunger ≤ 100 ∧ 0 ≤ g.thirst ∧ g.thirst ≤ 100 ∧
  0 ≤ g.bathroom ∧ g.bathroom ≤ 100 ∧ 0 ≤ g.energy ∧ g.energy ≤ 100 ∧
  0 ≤ g.nausea ∧ g.nausea ≤ 100 ∧ 0 ≤ g.happiness ∧ g.happiness ≤ 100

instance needs_in_range_decidable (g : Guest) : Decidable (needs_in_range g) := by
  unfold needs_in_range
  infer_instance

/-- The six range-tracked stats plus cash, used to state that a step does
not touch them. -/
def guest_vitals (g : Guest) : ℚ × ℚ × ℚ × ℚ × ℚ × ℚ × Int :=
  (g.hunger, g.thirst, g.bathroom, g.energy, g.happiness, g.nausea, g.cash)

/-! ## Concrete fixtures for counterexamples and witnesses -/

/-- A walkable path tile. -/
def path_tile (x y : Int) : Tile := { Tile.new x y with path := true }

/-- A tile carrying a building. -/
def building_tile (x y : Int) (bt : BuildingType) : Tile :=
  { Tile.new x y with building := some { building_type := bt } }

/-- A 2 by 2 grid of path tiles. -/
def cx_grid2 : Grid := [[path_tile 0 0, path_tile 1 0], [path_tile 0 1, path_tile 1 1]]

/-- A 2 by 2 grid whose corner tile at the origin is plain grass. -/
def cx_grid_nw : Grid := [[Tile.new 0 0, path_tile 1 0], [path_tile 0 1, path_tile 1 1]]

/-- A 3 by 3 grid with two food stalls. -/
def cx_grid_food : Grid :=
  [[building_tile 0 0 .foodHotdog, path_tile 1 0, building_tile 2 0 .foodBurger],
   [path_tile 0 1, path_tile 1 1, path_tile 2 1],
   [path_tile 0 2, path_tile 1 2, path_tile 2 2]]

/-- A base game state over the given grid and generator seed. -/
def base_state (g : Grid) (n : Nat) (seed : Nat) : GameState :=
  { grid := g, grid_size := n, tick := 0, speed := 1, year := 1, month := 3,
    day := 1, hour := 9, minute := 0, guests := [], coasters := [],
    active_coaster_id := none, cash := 50000, park_rating := 500,
    rng_state := seed, next_guest_id := 1 }

/-- A 4-piece track whose first piece is the station. -/
def cx_pieces : List TrackPiece :=
  [TrackPiece.new .station .north 0, TrackPiece.new .straightFlat .east 0,
   TrackPiece.new .straightFlat .south 0, TrackPiece.new .straightFlat .west 0]

/-- A two-car train parked at the station. -/
def cx_train : Train :=
  { id := 0, cars := [TrainCar.new 0, TrainCar.new 0], state := .loading,
    state_timer := 5 }

/-- An operating coaster with the 4-tile ring track and one train. -/
def cx_coaster : Coaster :=
  { Coaster.new "c1" "Comet" .steelSitDown with
    track_tiles := [(0, 0), (1, 0), (1, 1), (0, 1)],
    track_pieces := cx_pieces, station_tile := (0, 0), trains := [cx_train],
    operating := true }

/-- A game state with the one operating coaster. -/
def cx_train_state : GameState :=
  { base_state cx_grid2 2 1 with coasters := [cx_coaster] }

/-- A coaster over the 4-tile ring. -/
def cx_ring : Coaster :=
  { Coaster.new "r" "Ring" .steelSitDown with
    track_tiles := [(0, 0), (1, 0), (1, 1), (0, 1)] }

/-- The same list of tiles with the last replaced by (5, 5). -/
def cx_ring_bad : Coaster :=
  { Coaster.new "r" "Ring" .steelSitDown with
    track_tiles := [(0, 0), (1, 0), (1, 1), (5, 5)] }

/-- A concrete mid-walk guest with in-range needs and nonnegative cash. -/
def cx_guest : Guest :=
  { id := 1, tile_x := 1, tile_y := 1, target_x := 1, target_y := 1,
    progress := 0, direction := .south, state := .walking,
    last_state := .walking, target_building_id := none,
    target_building_kind := none, path := [], path_index := 0,
    queue_ride_id := none, queue_timer := 0, hunger := 50, thirst := 50,
    bathroom := 20, energy := 90, happiness := 80, nausea := 0, cash := 40,
    total_spent := 0, time_in_park := 0, decision_cooldown := 100,
    colors := { skin := 0, shirt := 0, pants := 0, hat := 0 },
    has_hat := false, walk_offset := 0 }

/-- A game state holding the concrete guest. -/
def cx_guest_state : GameState :=
  { base_state cx_grid2 2 1 with guests := [cx_guest] }

/-- The concrete guest with cash below the entry fee. -/
def cx_poor_guest : Guest := { cx_guest with cash := 10 }

/-- The concrete train after one vehicle update (timer decremented, cars
pinned at the station with the trailing car 0.18 ahead of the lead). -/
def cx_train_after : Train :=
  { id := 0, cars := [{ track_progress := 0, velocity := 0 },
                      { track_progress := 9 / 50, velocity := 0 }],
    state := .loading, state_timer := 4 }

/-- The concrete game state after one vehicle update. -/
def cx_train_state_after : GameState :=
  { cx_train_state with
    coasters := [{ cx_coaster with trains := [cx_train_after] }] }

/-- The concrete guest state paused (speed 0), on which a tick is the
identity. -/
def cx_paused_state : GameState :=
  { cx_guest_state with speed := 0 }

/-! # Theorems -/

/-- Helper: pointwise reading of a successful option traversal. -/
theorem traverse_option_pointwise {α β : Type} (f : α → Option β) :
    ∀ (l : List α) (l' : List β), traverse_option f l = some l' →
      l'.length = l.length ∧
      ∀ i a, l.get? i = some a → ∃ b, f a = some b ∧ l'.get? i = some b := by
  intro l
  induction l with
  | nil =>
    intro l' h
    cases h
    exact ⟨rfl, fun i a hia => by cases i <;> cases hia⟩
  | cons a l ih =>
    intro l' h
    unfold traverse_option at h
    cases hfa : f a with
    | none => rw [hfa] at h; cases h
    | some b =>
      rw [hfa] at h
      cases hml : traverse_option f l with
      | none => rw [hml] at h; cases h
      | some bs =>
        rw [hml] at h
        cases h
        obtain ⟨hlen, hpt⟩ := ih bs hml
        refine ⟨by simpa using hlen, ?_⟩
        intro i x hix
        cases i with
        | zero => cases hix; exact ⟨b, hfa, rfl⟩
        | succ i => exact hpt i x hix

/-- Claim C4: is_complete holds exactly when the track has at least 4
tiles and every consecutive pair, wrap-around included, is at Manhattan
distance exactly 1; the 4-tile ring is complete and the ring with its
last tile replaced by (5, 5) is not. -/
theorem is_complete_iff :
    (∀ c : Coaster,
      (c.is_complete = true ↔
        (4 ≤ c.track_tiles.length ∧ ∀ i < c.track_tiles.length,
          ((c.track_tiles.getD i (0, 0)).1 -
            (c.track_tiles.getD ((i + 1) % c.track_tiles.length) (0, 0)).1).natAbs +
          ((c.track_tiles.getD i (0, 0)).2 -
            (c.track_tiles.getD ((i + 1) % c.track_tiles.length) (0, 0)).2).natAbs = 1))) ∧
    cx_ring.is_complete = true ∧ cx_ring_bad.is_complete = false := by
  refine ⟨?_, by decide, by decide⟩
  intro c
  unfold Coaster.is_complete
  by_cases hlen : c.track_tiles.length < 4
  · simp only [if_pos hlen]
    constructor
    · intro h; cases h
    · rintro ⟨h4, -⟩; omega
  · simp only [if_neg hlen, List.all_eq_true]
    constructor
    · intro h
      refine ⟨by omega, ?_⟩
      intro i hi
      have := h i (List.mem_range.mpr hi)
      simp only [decide_eq_true_eq] at this
      omega
    · rintro ⟨-, h⟩
      intro i hi
      have := h i (List.mem_range.mp hi)
      simp only [decide_eq_true_eq]
      omega

/-- Claim C8: a spawn attempt whose candidate guest cannot afford the
entry fee of 20 admits nothing: the guest list and the park cash are
returned untouched. -/
theorem admit_guest_insufficient (st : GameState) (guest : Guest)
    (h : guest.cash < entry_fee) :
    (admit_guest st guest).guests = st.guests ∧
    (admit_guest st guest).cash = st.cash := by
  unfold admit_guest
  rw [if_neg (by omega)]
  exact ⟨rfl, rfl⟩

/-- Witness for C8 at a concrete state and a candidate with cash 10. -/
theorem admit_guest_insufficient_witness :
    cx_poor_guest.cash < entry_fee ∧
    (admit_guest (base_state cx_grid2 2 1) cx_poor_guest).guests =
      (base_state cx_grid2 2 1).guests ∧
    (admit_guest (base_state cx_grid2 2 1) cx_poor_guest).cash =
      (base_state cx_grid2 2 1).cash :=
  ⟨by decide, admit_guest_insufficient (base_state cx_grid2 2 1) cx_poor_guest (by decide)⟩

/-- Claim C9: with no active guest the park-rating recomputation leaves
the whole state (hence the initial rating of 500) unchanged, also through
update_guests; with at least one guest the rating becomes ten times the
mean happiness capped at 1000 (cast to i32), touching nothing else. -/
theorem update_park_rating_spec (st : GameState) :
    (st.guests = [] → st.update_park_rating = st) ∧
    (st.guests = [] → (update_guests st).park_rating = st.park_rating) ∧
    (st.guests ≠ [] →
      (st.update_park_rating).park_rating =
        ratToI32 (min ((st.guests.map Guest.happiness).sum /
          (st.guests.length : ℚ) * 10) 1000) ∧
      (st.update_park_rating).guests = st.guests ∧
      (st.update_park_rating).cash = st.cash) := by
  refine ⟨?_, ?_, ?_⟩
  · intro h
    unfold GameState.update_park_rating
    rw [if_pos (by simpa [List.isEmpty_iff] using h)]
  · intro h
    unfold update_guests update_guests_pass
    rw [h]
    simp only [List.map_nil]
    unfold GameState.update_park_rating
    rw [if_pos (by simpa [List.isEmpty_iff] using h)]
  · intro h
    unfold GameState.update_park_rating
    rw [if_neg (by simpa [List.isEmpty_iff] using h)]
    exact ⟨rfl, rfl, rfl⟩

/-- Witness for C9: the empty state is fixed; the one-guest state gets
rating 800 from happiness 80. -/
theorem update_park_rating_spec_witness :
    ((base_state cx_grid2 2 1).update_park_rating = base_state cx_grid2 2 1) ∧
    (cx_guest_state.update_park_rating).park_rating =
      ratToI32 (min ((cx_guest_state.guests.map Guest.happiness).sum /
        (cx_guest_state.guests.length : ℚ) * 10) 1000) ∧
    (cx_guest_state.update_park_rating).park_rating = 800 :=
  ⟨(update_park_rating_spec (base_state cx_grid2 2 1)).1 rfl,
   ((update_park_rating_spec cx_guest_state).2.2 (by decide)).1,
   by
     simp [cx_guest_state, GameState.update_park_rating, base_state, cx_guest,
       ratToI32, ratTrunc]
     norm_num [min_def, max_def]⟩

/-- Helper: a cell of map_with_index. -/
theorem map_with_index_get? {α β : Type} (f : Nat → α → β) :
    ∀ (l : List α) (s k : Nat),
      (map_with_index f s l).get? k = (l.get? k).map (f (s + k)) := by
  intro l
  induction l with
  | nil => intro s k; cases k <;> rfl
  | cons a l ih =>
    intro s k
    cases k with
    | zero => rfl
    | succ k =>
      simp only [map_with_index, List.get?]
      rw [show s + (k + 1) = s + 1 + k by omega]
      exact ih (s + 1) k

/-- Helper: map_with_index keeps the length. -/
theorem map_with_index_length {α β : Type} (f : Nat → α → β) :
    ∀ (l : List α) (s : Nat), (map_with_index f s l).length = l.length := by
  intro l
  induction l with
  | nil => intro s; rfl
  | cons a l ih => intro s; simp [map_with_index, ih]

/-- Helper: after a successful per-train update, every trailing car sits
exactly i * 0.18 after the lead car, modulo the track length. -/
theorem update_train_spacing (sb tl : ℚ) (tp : List TrackPiece) (si cl : Nat)
    (tr tr' : Train) (h : update_train sb tp tl si cl tr = some tr') :
    ∀ k, 0 < k → k < tr'.cars.length →
      ∃ car0 cark, tr'.cars.get? 0 = some car0 ∧ tr'.cars.get? k = some cark ∧
        cark.track_progress =
          fmod (car0.track_progress + (k : ℚ) * 0.18) tl := by
  simp only [update_train] at h
  obtain ⟨t1, hstep, hfin⟩ := Option.map_eq_some'.mp h
  clear hstep h
  intro k hk0 hk
  cases hcars : t1.cars with
  | nil =>
    rw [hcars] at hfin
    simp only [List.head?] at hfin
    subst hfin
    rw [hcars] at hk
    simp at hk
  | cons c0 cs =>
    rw [hcars] at hfin
    simp only [List.head?] at hfin
    subst hfin
    have hk' : k < (c0 :: cs).length := by
      simpa [map_with_index_length] using hk
    simp only [map_with_index_get?]
    rw [List.get?_eq_get hk']
    simp only [List.get?, Option.map_some']
    refine ⟨_, _, rfl, rfl, ?_⟩
    simp [Nat.pos_iff_ne_zero.mp hk0]

/-- Helper: the trailing-car spacing pass does not change the dispatch
state, so one per-train update moves the state along the cycle or not at
all. -/
theorem update_train_state (sb tl : ℚ) (tp : List TrackPiece) (si cl : Nat)
    (tr tr' : Train) (h : update_train sb tp tl si cl tr = some tr') :
    tr'.state = tr.state ∨ tr'.state = train_state_next tr.state := by
  simp only [update_train] at h
  obtain ⟨t1, hstep, hfin⟩ := Option.map_eq_some'.mp h
  have hst : tr'.state = t1.state := by
    cases hcars : t1.cars with
    | nil => rw [hcars] at hfin; simp only [List.head?] at hfin; subst hfin; rfl
    | cons c0 cs => rw [hcars] at hfin; simp only [List.head?] at hfin; subst hfin; rfl
  rw [hst]
  cases htr : tr.state with
  | loading =>
    rw [htr] at hstep
    simp only [] at hstep
    split at hstep
    · cases hstep; right; rfl
    · cases hstep; left; rfl
  | dispatching =>
    rw [htr] at hstep
    simp only [] at hstep
    split at hstep
    · cases hstep; right; rfl
    · cases hstep; left; rfl
  | running =>
    rw [htr] at hstep
    simp only [] at hstep
    cases hh : ({ tr with state_timer := tr.state_timer - 1 } : Train).cars.head? with
    | none => rw [hh] at hstep; cases hstep
    | some c0 =>
      rw [hh] at hstep
      simp only [] at hstep
      split at hstep
      · cases hstep; right; rfl
      · cases hstep; left; rfl
  | braking =>
    rw [htr] at hstep
    simp only [] at hstep
    cases hh : ({ tr with state_timer := tr.state_timer - 1 } : Train).cars.head? with
    | none => rw [hh] at hstep; cases hstep
    | some c0 =>
      rw [hh] at hstep
      simp only [] at hstep
      split at hstep
      · cases hstep; right; rfl
      · cases hstep; left; rfl

/-- Helper: reading one coaster out of a successful update_trains. -/
theorem update_trains_pointwise (st st' : GameState)
    (h : update_trains st = some st') (i : Nat) (c : Coaster)
    (hc : st.coasters.get? i = some c) :
    ∃ c', st'.coasters.get? i = some c' ∧
      update_coaster (speed_boosts.getD (st.speed % 4) 1) c = some c' := by
  simp only [update_trains] at h
  obtain ⟨cs', htrav, hst'⟩ := Option.map_eq_some'.mp h
  obtain ⟨hlen, hpt⟩ := traverse_option_pointwise _ _ _ htrav
  obtain ⟨c', hcc, hci⟩ := hpt i c hc
  subst hst'
  exact ⟨c', hci, hcc⟩

/-- Helper: destructuring update_coaster on an operating coaster with a
nonempty track. -/
theorem update_coaster_operating (sb : ℚ) (c c' : Coaster)
    (hop : c.operating = true) (hne : c.track_pieces ≠ [])
    (h : update_coaster sb c = some c') :
    c'.trains.length = c.trains.length ∧
    ∀ j tr', c'.trains.get? j = some tr' →
      ∃ tr, c.trains.get? j = some tr ∧
        update_train sb c.track_pieces (c.track_pieces.length : ℚ)
          ((c.track_tiles.findIdx? fun t =>
            decide (t.1 = c.station_tile.1 ∧ t.2 = c.station_tile.2)).getD 0)
          c.id.length tr = some tr' := by
  simp only [update_coaster] at h
  rw [if_neg (by simp [hop, hne])] at h
  have hge : ¬ ((c.track_pieces.length : ℚ) < 1) := by
    have : 1 ≤ c.track_pieces.length := by
      cases hp : c.track_pieces with
      | nil => exact absurd hp hne
      | cons a l => simp
    push_neg
    exact_mod_cast this
  rw [if_neg hge] at h
  obtain ⟨trains', htrav, hc'⟩ := Option.map_eq_some'.mp h
  obtain ⟨hlen, hpt⟩ := traverse_option_pointwise _ _ _ htrav
  subst hc'
  constructor
  · simpa using hlen
  · intro j tr' ht'
    simp only at ht'
    have hj : j < trains'.length := by
      by_contra hge2
      rw [List.get?_eq_none.mpr (by omega)] at ht'
      cases ht'
    have hj' : j < c.trains.length := by omega
    obtain ⟨tr, htr⟩ : ∃ tr, c.trains.get? j = some tr :=
      ⟨_, List.get?_eq_get hj'⟩
    obtain ⟨tr'', hupd, hget⟩ := hpt j tr htr
    rw [hget] at ht'
    injection ht' with ht'
    subst ht'
    exact ⟨tr, htr, hupd⟩

/-- Claim C5 (confirmed): across one vehicle-update tick, every train's
dispatch state either stays put or advances one step along the cycle
Loading, Dispatching, Running, Braking, Loading; no other transition
occurs from any train state. -/
theorem train_state_cycle (st st' : GameState) (h : update_trains st = some st')
    (i j : Nat) (c c' : Coaster) (tr tr' : Train)
    (hc : st.coasters.get? i = some c) (hc' : st'.coasters.get? i = some c')
    (ht : c.trains.get? j = some tr) (ht' : c'.trains.get? j = some tr') :
    tr'.state = tr.state ∨ tr'.state = train_state_next tr.state := by
  obtain ⟨c'', hci, hcc⟩ := update_trains_pointwise st st' h i c hc
  rw [hc'] at hci
  injection hci with hci
  subst hci
  by_cases hskip : c.operating = true ∧ c.track_pieces ≠ []
  · obtain ⟨hlen, hpt⟩ := update_coaster_operating _ c c' hskip.1 hskip.2 hcc
    obtain ⟨tr0, htr0, hupd⟩ := hpt j tr' ht'
    rw [ht] at htr0
    injection htr0 with htr0
    subst htr0
    exact update_train_state _ _ _ _ _ _ _ hupd
  · have hcceq : c' = c := by
      simp only [update_coaster] at hcc
      rw [if_pos (by tauto)] at hcc
      injection hcc with hcc
      exact hcc.symm
    subst hcceq
    rw [ht] at ht'
    injection ht' with ht'
    subst ht'
    exact Or.inl rfl

/-- Evaluation of the per-train update on the concrete train. -/
theorem update_train_cx_eval :
    update_train (3 / 2) cx_pieces 4 0 2 cx_train = some cx_train_after := by
  norm_num [update_train, cx_train, cx_pieces, cx_train_after, fmod,
    ratTrunc, map_with_index, TrainCar.new, TrackPiece.new]

/-- Evaluation of the per-coaster update on the concrete coaster. -/
theorem update_coaster_cx_eval :
    update_coaster (3 / 2) cx_coaster =
      some { cx_coaster with trains := [cx_train_after] } := by
  have hpieces : cx_coaster.track_pieces = cx_pieces := rfl
  simp only [update_coaster]
  rw [if_neg (by decide)]
  rw [if_neg (by norm_num [cx_coaster, cx_pieces, Coaster.new, TrackPiece.new])]
  have hidx : (cx_coaster.track_tiles.findIdx? fun t =>
      decide (t.1 = cx_coaster.station_tile.1 ∧ t.2 = cx_coaster.station_tile.2)).getD 0 = 0 := by
    decide
  rw [hpieces, hidx]
  have hlen : ((cx_pieces.length : ℚ)) = 4 := by norm_num [cx_pieces, TrackPiece.new]
  rw [show cx_coaster.trains = [cx_train] from rfl, hlen,
    show cx_coaster.id.length = 2 from rfl]
  simp [traverse_option, update_train_cx_eval]

/-- Evaluation of one vehicle update on the concrete one-coaster state. -/
theorem update_trains_cx_eval :
    update_trains cx_train_state = some cx_train_state_after := by
  simp only [update_trains]
  rw [show cx_train_state.coasters = [cx_coaster] from rfl,
    show speed_boosts.getD (cx_train_state.speed % 4) 1 = 3 / 2 by norm_num [speed_boosts, cx_train_state, base_state]]
  simp [traverse_option, update_coaster_cx_eval, cx_train_state_after]

/-- Witness for C5: the concrete loading train stays in Loading across
the concrete vehicle update. -/
theorem train_state_cycle_witness :
    (cx_train_after.state = cx_train.state ∨
      cx_train_after.state = train_state_next cx_train.state) :=
  train_state_cycle cx_train_state cx_train_state_after update_trains_cx_eval
    0 0 cx_coaster { cx_coaster with trains := [cx_train_after] }
    cx_train cx_train_after rfl rfl rfl rfl

/-- Claim C2 (amended): after any vehicle-update tick, car i of a train
on an operating coaster with a nonempty track sits at
(car_0.position + i * 0.18) mod track_length - the trailing cars are
derived from the lead by adding, not subtracting, the spacing. -/
theorem train_spacing_plus (st st' : GameState) (h : update_trains st = some st')
    (i j k : Nat) (c c' : Coaster) (tr' : Train)
    (hc : st.coasters.get? i = some c) (hc' : st'.coasters.get? i = some c')
    (hop : c.operating = true) (hne : c.track_pieces ≠ [])
    (ht' : c'.trains.get? j = some tr')
    (hk0 : 0 < k) (hk : k < tr'.cars.length) :
    ∃ car0 cark, tr'.cars.get? 0 = some car0 ∧ tr'.cars.get? k = some cark ∧
      cark.track_progress =
        fmod (car0.track_progress + (k : ℚ) * 0.18)
          ((c.track_pieces.length : ℚ)) := by
  obtain ⟨c'', hci, hcc⟩ := update_trains_pointwise st st' h i c hc
  rw [hc'] at hci
  injection hci with hci
  subst hci
  obtain ⟨hlen, hpt⟩ := update_coaster_operating _ c c' hop hne hcc
  obtain ⟨tr0, htr0, hupd⟩ := hpt j tr' ht'
  exact update_train_spacing _ _ _ _ _ tr0 tr' hupd k hk0 hk

/-- Witness for C2 at the concrete operating coaster. -/
theorem train_spacing_plus_witness :
    ∃ car0 car1, cx_train_after.cars.get? 0 = some car0 ∧
      cx_train_after.cars.get? 1 = some car1 ∧
      car1.track_progress =
        fmod (car0.track_progress + (1 : ℚ) * 0.18)
          ((cx_coaster.track_pieces.length : ℚ)) :=
  train_spacing_plus cx_train_state cx_train_state_after update_trains_cx_eval
    0 0 1 cx_coaster { cx_coaster with trains := [cx_train_after] }
    cx_train_after rfl rfl rfl (by decide) rfl (by decide) (by decide)

/-- Counterexample for C2 as stated: on the concrete operating coaster
the updated trailing car sits at 0.18, which is the lead position plus
0.18, and differs from (lead - 0.18) mod 4 under both the Rust remainder
(-0.18) and the mathematical modulus (3.82). -/
theorem train_spacing_minus_cx :
    (update_trains cx_train_state).map
        (fun st' => st'.coasters.map fun c' => c'.trains.map fun tr' =>
          tr'.cars.map TrainCar.track_progress) =
      some [[[0, 0.18]]] ∧
    fmod ((0 : ℚ) - 1 * 0.18) 4 = -0.18 ∧
    ((0.18 : ℚ) ≠ -0.18) ∧ ((0.18 : ℚ) ≠ 4 - 0.18) := by
  refine ⟨?_, ?_, ?_, ?_⟩
  · rw [update_trains_cx_eval]
    norm_num [cx_train_state_after, cx_train_state, cx_coaster, cx_train_after,
      base_state]
  · norm_num [fmod, ratTrunc, Int.ceil_eq_iff]
  · norm_num
  · norm_num

/-- Claim C3 (amended): the destination of a matching kind is chosen from
the row-major candidate list at an index that is a pure hash of the start
coordinates; the result is a member of the candidate list, is none exactly
when no structure matches, and is entirely independent of the simulation
generator state (only the grid and its size matter). -/
theorem find_destination_hash_select (st1 st2 : GameState) (start : Cell)
    (kind : TargetKind) (hg : st1.grid = st2.grid)
    (hn : st1.grid_size = st2.grid_size) :
    find_destination st1 start kind = find_destination st2 start kind ∧
    (destination_candidates st1 kind = [] ↔
      find_destination st1 start kind = none) ∧
    (∀ res, find_destination st1 start kind = some res →
      res ∈ destination_candidates st1 kind) := by
  have hcand : destination_candidates st1 kind = destination_candidates st2 kind := by
    unfold destination_candidates
    rw [hg, hn]
  refine ⟨?_, ?_, ?_⟩
  · unfold find_destination
    rw [hcand]
  · unfold find_destination
    constructor
    · intro h
      rw [if_pos h]
    · intro h
      by_contra hne
      rw [if_neg hne] at h
      cases h
  · intro res h
    unfold find_destination at h
    by_cases hne : destination_candidates st1 kind = []
    · rw [if_pos hne] at h; cases h
    · rw [if_neg hne] at h
      injection h with h
      subst h
      have hlt : destination_hash_index start (destination_candidates st1 kind).length <
          (destination_candidates st1 kind).length := by
        unfold destination_hash_index
        exact Nat.mod_lt _ (List.length_pos.mpr hne)
      rw [List.getD_eq_getElem _ _ hlt]
      exact List.getElem_mem _

/-- Witness for C3's amended claim at two concrete states sharing the
grid but with different generator seeds. -/
theorem find_destination_hash_select_witness :
    find_destination (base_state cx_grid_food 3 1) (1, 1) .food =
      find_destination (base_state cx_grid_food 3 (2 ^ 63)) (1, 1) .food ∧
    (∀ res, find_destination (base_state cx_grid_food 3 1) (1, 1) .food = some res →
      res ∈ destination_candidates (base_state cx_grid_food 3 1) .food) :=
  ⟨(find_destination_hash_select (base_state cx_grid_food 3 1)
      (base_state cx_grid_food 3 (2 ^ 63)) (1, 1) .food rfl rfl).1,
   (find_destination_hash_select (base_state cx_grid_food 3 1)
      (base_state cx_grid_food 3 (2 ^ 63)) (1, 1) .food rfl rfl).2.2⟩

/-- Counterexample for C3 as stated: on a grid with two food stalls, the
code's selection is the same fixed stall for two states that differ only
in the generator seed, while the uniform selection through the seeded
simulation generator demanded by the spec distinguishes them. -/
theorem find_destination_prng_cx :
    (base_state cx_grid_food 3 1).rng_state ≠
      (base_state cx_grid_food 3 (2 ^ 63)).rng_state ∧
    find_destination (base_state cx_grid_food 3 1) (1, 1) .food =
      some ((0, 0), "0,0") ∧
    find_destination (base_state cx_grid_food 3 (2 ^ 63)) (1, 1) .food =
      some ((0, 0), "0,0") ∧
    (find_destination_spec_uniform (base_state cx_grid_food 3 1) .food).map
        (fun r => r.1) = some ((0, 0), "0,0") ∧
    (find_destination_spec_uniform (base_state cx_grid_food 3 (2 ^ 63)) .food).map
        (fun r => r.1) = some ((2, 0), "2,0") ∧
    (((0, 0) : Cell), "0,0") ≠ (((2, 0) : Cell), "2,0") := by
  have hcand1 : destination_candidates (base_state cx_grid_food 3 1) .food =
      [(((0 : Int), (0 : Int)), "0,0"), (((2 : Int), (0 : Int)), "2,0")] := by
    decide
  have hcand2 : destination_candidates (base_state cx_grid_food 3 (2 ^ 63)) .food =
      [(((0 : Int), (0 : Int)), "0,0"), (((2 : Int), (0 : Int)), "2,0")] := by
    decide
  refine ⟨by decide, by decide, by decide, ?_, ?_, by decide⟩
  · have hx : xorshift64 1 = 1082269761 := by decide
    unfold find_destination_spec_uniform
    rw [hcand1, if_neg (by simp)]
    simp only [GameState.random, hx, base_state]
    norm_num [ratToUsize, ratTrunc, U64, U32]
  · have hx : xorshift64 (2 ^ 63) = 9295429630892703744 := by decide
    unfold find_destination_spec_uniform
    rw [hcand2, if_neg (by simp)]
    simp only [GameState.random, hx, base_state]
    norm_num [ratToUsize, ratTrunc, U64, U32]

/-- Helper: the BFS expansion never reads the walkability of a cell that
is already visited, so it is unchanged when two grids of equal size agree
on walkability away from a visited cell s. -/
theorem bfs_expand_congr (g g' : Grid) (s : Cell)
    (hlen : g.length = g'.length)
    (hw : ∀ c : Cell, c ≠ s → walkableAt g c = walkableAt g' c)
    (c : Cell) (p : List Cell) :
    ∀ (ds : List Cell) (acc : List (Cell × List Cell) × List Cell),
      s ∈ acc.2 →
      ds.foldl (bfs_expand g c p) acc = ds.foldl (bfs_expand g' c p) acc ∧
      s ∈ (ds.foldl (bfs_expand g c p) acc).2 := by
  intro ds
  induction ds with
  | nil => intro acc hs; exact ⟨rfl, hs⟩
  | cons d ds ih =>
    intro acc hs
    have hstep : bfs_expand g c p acc d = bfs_expand g' c p acc d ∧
        s ∈ (bfs_expand g c p acc d).2 := by
      unfold bfs_expand
      rw [hlen]
      by_cases hb : inBoundsB g'.length (c.1 + d.1, c.2 + d.2) = true
      · simp only [hb]
        by_cases hv : (c.1 + d.1, c.2 + d.2) ∈ acc.2
        · simp [hv, hs]
        · have hne : ((c.1 + d.1, c.2 + d.2) : Cell) ≠ s := by
            intro he
            exact hv (he ▸ hs)
          rw [hw _ hne]
          by_cases hwki : walkableAt g' (c.1 + d.1, c.2 + d.2) = true
          · simp [hv, hwki, hs]
          · simp [hv, hwki, hs]
      · simp [hb, hs]
    simp only [List.foldl_cons]
    rw [← hstep.1]
    exact ih (bfs_expand g c p acc d) hstep.2

/-- Helper: the BFS loop is unchanged between two grids of equal size that
agree on walkability away from a cell s already in the visited set. -/
theorem bfs_loop_congr (g g' : Grid) (s t : Cell) (m : Nat)
    (hlen : g.length = g'.length)
    (hw : ∀ c : Cell, c ≠ s → walkableAt g c = walkableAt g' c) :
    ∀ (fuel : Nat) (q : List (Cell × List Cell)) (visited : List Cell),
      s ∈ visited →
      bfs_loop g t m fuel q visited = bfs_loop g' t m fuel q visited := by
  intro fuel
  induction fuel with
  | zero => intro q visited hs; rfl
  | succ fuel ih =>
    intro q visited hs
    cases q with
    | nil => rfl
    | cons e rest =>
      obtain ⟨c, p⟩ := e
      simp only [bfs_loop]
      by_cases hcut : m ≤ p.length
      · rw [if_pos hcut, if_pos hcut]
        exact ih rest visited hs
      · rw [if_neg hcut, if_neg hcut]
        by_cases hct : c = t
        · rw [if_pos hct, if_pos hct]
        · rw [if_neg hct, if_neg hct]
          obtain ⟨heq, hmem⟩ := bfs_expand_congr g g' s hlen hw c p dirs ([], visited) hs
          rw [← heq]
          exact ih _ _ hmem

/-- Claim C10 (confirmed): find_path returns the single-waypoint sequence
[s] whenever start equals target, for every grid and every step budget
including zero; more generally it never reads the walkability of the
start tile - its result is invariant under changing that tile - so a
returned path may begin on a non-walkable tile, as the concrete grass
start shows. -/
theorem find_path_start_walkability :
    (∀ (g : Grid) (s : Cell) (m : Nat), find_path g s s m = [s]) ∧
    (∀ (g g' : Grid) (s t : Cell) (m : Nat), g.length = g'.length →
      (∀ c : Cell, c ≠ s → walkableAt g c = walkableAt g' c) →
      find_path g s t m = find_path g' s t m) ∧
    (walkableAt cx_grid_nw (0, 0) = false ∧
      find_path cx_grid_nw (0, 0) (1, 1) 5 = [(0, 0), (1, 0), (1, 1)]) := by
  refine ⟨?_, ?_, by decide, by decide⟩
  · intro g s m
    unfold find_path
    rw [if_pos rfl]
  · intro g g' s t m hlen hw
    unfold find_path
    by_cases hst : s = t
    · rw [if_pos hst, if_pos hst]
    · rw [if_neg hst, if_neg hst, hlen]
      exact bfs_loop_congr g g' s t m hlen hw _ _ _ (List.mem_singleton.mpr rfl)

/-- Witness for C10 on the concrete grids that differ exactly in the
walkability of the start corner. -/
theorem find_path_start_walkability_witness :
    find_path cx_grid_nw (5, 5) (5, 5) 0 = [(5, 5)] ∧
    find_path cx_grid_nw (0, 0) (1, 1) 5 = find_path cx_grid2 (0, 0) (1, 1) 5 := by
  constructor
  · exact find_path_start_walkability.1 cx_grid_nw (5, 5) 0
  · refine find_path_start_walkability.2.1 cx_grid_nw cx_grid2 (0, 0) (1, 1) 5 rfl ?_
    intro c hc
    rcases c with ⟨x, y⟩
    unfold walkableAt tileAt
    by_cases hneg : x < 0 ∨ y < 0
    · rw [if_pos hneg, if_pos hneg]
    · push_neg at hneg
      obtain ⟨hx, hy⟩ := hneg
      rw [if_neg (by omega), if_neg (by omega)]
      have hxc : x.toNat = 0 ∨ x.toNat = 1 ∨ 2 ≤ x.toNat := by omega
      have hyc : y.toNat = 0 ∨ y.toNat = 1 ∨ 2 ≤ y.toNat := by omega
      rcases hyc with hy0 | hy1 | hy2
      · rcases hxc with hx0 | hx1 | hx2
        · exact absurd (by
            have hx' : x = 0 := by omega
            have hy' : y = 0 := by omega
            rw [hx', hy']) hc
        · rw [hy0, hx1]; rfl
        · rw [hy0]
          have e1 : (cx_grid_nw.get? 0) = some [Tile.new 0 0, path_tile 1 0] := rfl
          have e2 : (cx_grid2.get? 0) = some [path_tile 0 0, path_tile 1 0] := rfl
          rw [e1, e2]
          simp only [Option.some_bind]
          rw [List.get?_eq_none.mpr (by simp; omega),
            List.get?_eq_none.mpr (by simp; omega)]
      · rw [hy1]; rfl
      · rw [List.get?_eq_none.mpr (by simp [cx_grid_nw]; omega),
          List.get?_eq_none.mpr (by simp [cx_grid2]; omega)]

/-- Helper: every sample drawn from the simulation generator lies in the
unit interval. -/
theorem random_bounds (st : GameState) : 0 ≤ st.random.1 ∧ st.random.1 ≤ 1 := by
  unfold GameState.random
  have hlt : xorshift64 st.rng_state < U64 := by
    unfold xorshift64
    exact Nat.mod_lt _ (by norm_num [U64])
  have hle : (xorshift64 st.rng_state : ℚ) ≤ (U64 : ℚ) - 1 := by
    have : (xorshift64 st.rng_state : ℚ) ≤ ((U64 - 1 : Nat) : ℚ) := by
      exact_mod_cast Nat.le_sub_one_of_lt hlt
    calc (xorshift64 st.rng_state : ℚ) ≤ ((U64 - 1 : Nat) : ℚ) := this
      _ = (U64 : ℚ) - 1 := by norm_num [U64]
  have hpos : (0 : ℚ) < (U64 : ℚ) - 1 := by norm_num [U64]
  constructor
  · positivity
  · rw [div_le_one hpos]
    exact hle

/-- Helper: the needs drift keeps every tracked stat in range and does
not touch cash. -/
theorem guest_drift_inv (g : Guest) (dt : ℚ) (hdt : 0 ≤ dt)
    (h : needs_in_range g) : needs_in_range (guest_drift g dt) ∧
      (guest_drift g dt).cash = g.cash := by
  obtain ⟨h1, h2, h3, h4, h5, h6, h7, h8, h9, h10, h11, h12⟩ := h
  have hd1 : (0 : ℚ) ≤ dt * 0.01 := by positivity
  have hd2 : (0 : ℚ) ≤ dt * 0.015 := by positivity
  have hd3 : (0 : ℚ) ≤ dt * 0.005 := by positivity
  have hd4 : (0 : ℚ) ≤ dt * 0.02 := by positivity
  unfold guest_drift needs_in_range
  dsimp only
  refine ⟨⟨?_, ?_, ?_, ?_, ?_, ?_, ?_, ?_, ?_, ?_, ?_, ?_⟩, rfl⟩
  · exact le_min (by linarith) (by norm_num)
  · exact min_le_right _ _
  · exact le_min (by linarith) (by norm_num)
  · exact min_le_right _ _
  · exact h5
  · exact h6
  · exact le_max_right _ _
  · exact max_le (by linarith) (by norm_num)
  · exact le_max_right _ _
  · exact max_le (by linarith) (by norm_num)
  · exact le_min (le_max_right _ _) (by norm_num)
  · exact min_le_right _ _

/-- Helper: the Queuing and Riding branch keeps the stats in range and
the cash untouched. -/
theorem guest_queue_step_inv (g : Guest) (st : GameState) (dt : ℚ)
    (ps : GuestState) (h : needs_in_range g) :
    needs_in_range (guest_queue_step g st dt ps).1 ∧
    (guest_queue_step g st dt ps).1.cash = g.cash := by
  obtain ⟨h1, h2, h3, h4, h5, h6, h7, h8, h9, h10, h11, h12⟩ := h
  obtain ⟨hr0, hr1⟩ := random_bounds st
  unfold guest_queue_step needs_in_range
  dsimp only
  split_ifs with ht hq
  · exact ⟨⟨h1, h2, h3, h4, h5, h6, h7, h8, h9, h10,
      le_min (by linarith) (by norm_num), min_le_right _ _⟩, rfl⟩
  · have hr5 : (0 : ℚ) ≤ st.random.1 * 5 := by positivity
    exact ⟨⟨h1, h2, h3, h4, h5, h6, h7, h8,
      le_min (by linarith) (by norm_num), min_le_right _ _, h11, h12⟩, rfl⟩
  · exact ⟨⟨h1, h2, h3, h4, h5, h6, h7, h8, h9, h10, h11, h12⟩, rfl⟩

/-- Helper: the Eating and Shopping branch keeps the stats in range and
the cash untouched. -/
theorem guest_activity_step_inv (g : Guest) (st : GameState) (dt : ℚ)
    (ps : GuestState) (h : needs_in_range g) :
    needs_in_range (guest_activity_step g st dt ps).1 ∧
    (guest_activity_step g st dt ps).1.cash = g.cash := by
  obtain ⟨h1, h2, h3, h4, h5, h6, h7, h8, h9, h10, h11, h12⟩ := h
  unfold guest_activity_step needs_in_range
  dsimp only
  split_ifs with ht he
  · exact ⟨⟨le_max_right _ _, max_le (by linarith) (by norm_num),
      le_max_right _ _, max_le (by linarith) (by norm_num), h5, h6, h7, h8,
      h9, h10, le_min (by linarith) (by norm_num), min_le_right _ _⟩, rfl⟩
  · exact ⟨⟨h1, h2, h3, h4, h5, h6, h7, h8, h9, h10,
      le_min (by linarith) (by norm_num), min_le_right _ _⟩, rfl⟩
  · exact ⟨⟨h1, h2, h3, h4, h5, h6, h7, h8, h9, h10, h11, h12⟩, rfl⟩

/-- Helper: destination seeking does not touch the stats or the cash. -/
theorem guest_seek_inv (g : Guest) (st : GameState) (hn : needs_in_range g) :
    needs_in_range (guest_seek g st).1 ∧ (guest_seek g st).1.cash = g.cash := by
  unfold guest_seek
  dsimp only
  split
  · split
    · split
      · unfold assign_path
        dsimp only
        split_ifs <;> exact ⟨hn, rfl⟩
      · exact ⟨hn, rfl⟩
    · exact ⟨hn, rfl⟩
  · exact ⟨hn, rfl⟩

/-- Helper: arrival pays the fee only when affordable, keeping the stats
in range, and keeping the cash nonnegative when it was. -/
theorem guest_arrive_inv (g : Guest) (st : GameState) (k : TargetKind)
    (ps : GuestState) (hn : needs_in_range g) :
    needs_in_range (guest_arrive g st k ps).1 ∧
    (0 ≤ g.cash → 0 ≤ (guest_arrive g st k ps).1.cash) := by
  unfold guest_arrive
  dsimp only
  split_ifs with hfee
  · cases k <;> exact ⟨hn, fun _ => by dsimp only; omega⟩
  · exact ⟨hn, fun hc => hc⟩

/-- Helper: wandering does not touch the stats or the cash. -/
theorem guest_wander_inv (g : Guest) (st : GameState) (n : Nat)
    (ps : GuestState) (hn : needs_in_range g) :
    needs_in_range (guest_wander g st n ps).1 ∧
    (guest_wander g st n ps).1.cash = g.cash := by
  unfold guest_wander
  dsimp only
  split_ifs <;> exact ⟨hn, rfl⟩

/-- Helper: movement keeps the stats in range, and keeps the cash
nonnegative when it was. -/
theorem guest_move_inv (g : Guest) (st : GameState) (n : Nat)
    (ps : GuestState) (hn : needs_in_range g) :
    needs_in_range (guest_move g st n ps).1 ∧
    (0 ≤ g.cash → 0 ≤ (guest_move g st n ps).1.cash) := by
  unfold guest_move
  dsimp only
  split
  · split
    · split
      · exact ⟨hn, fun hc => hc⟩
      · split
        · exact guest_arrive_inv _ _ _ _ hn
        · obtain ⟨ha, hb⟩ := guest_wander_inv
            { g with tile_x := g.target_x, tile_y := g.target_y, progress := 0 }
            st n ps hn
          exact ⟨ha, fun hc => by rw [hb]; exact hc⟩
    · exact ⟨hn, fun hc => hc⟩
  · exact ⟨hn, fun hc => hc⟩

/-- Helper: one whole per-guest update keeps the stats in range, and
keeps the cash nonnegative when it was. -/
theorem update_guest_inv (g : Guest) (st : GameState) (n : Nat)
    (hn : needs_in_range g) :
    needs_in_range (update_guest g st 1 n).1 ∧
    (0 ≤ g.cash → 0 ≤ (update_guest g st 1 n).1.cash) := by
  obtain ⟨hdn, hdc⟩ := guest_drift_inv g 1 (by norm_num) hn
  unfold update_guest
  dsimp only
  split
  all_goals first
    | (obtain ⟨ha, hb⟩ := guest_queue_step_inv (guest_drift g 1) st 1 g.state hdn
       exact ⟨ha, fun hc => by rw [hb, hdc]; exact hc⟩)
    | (obtain ⟨ha, hb⟩ := guest_activity_step_inv (guest_drift g 1) st 1 g.state hdn
       exact ⟨ha, fun hc => by rw [hb, hdc]; exact hc⟩)
    | (obtain ⟨ha, hb⟩ := guest_seek_inv (guest_drift g 1) st hdn
       refine ⟨(guest_move_inv (guest_seek (guest_drift g 1) st).1
           (guest_seek (guest_drift g 1) st).2 n g.state ha).1, fun hc => ?_⟩
       exact (guest_move_inv (guest_seek (guest_drift g 1) st).1
           (guest_seek (guest_drift g 1) st).2 n g.state ha).2
         (by rw [hb, hdc]; exact hc))

/-- Helper: a freshly created guest has all stats in range. -/
theorem guest_new_needs (id : Nat) (x y : Int) (n : Nat) (st : GameState) :
    needs_in_range (Guest.new id x y n st).1 := by
  obtain ⟨a5, b5⟩ := random_bounds st.random.2.random.2.random.2.random.2
  obtain ⟨a6, b6⟩ :=
    random_bounds st.random.2.random.2.random.2.random.2.random.2
  obtain ⟨a7, b7⟩ :=
    random_bounds st.random.2.random.2.random.2.random.2.random.2.random.2
  obtain ⟨a8, b8⟩ :=
    random_bounds
      st.random.2.random.2.random.2.random.2.random.2.random.2.random.2
  obtain ⟨a9, b9⟩ :=
    random_bounds
      st.random.2.random.2.random.2.random.2.random.2.random.2.random.2.random.2
  unfold Guest.new needs_in_range
  dsimp only
  refine ⟨?_, ?_, ?_, ?_, ?_, ?_, ?_, ?_, ?_, ?_, ?_, ?_⟩
  · nlinarith
  · nlinarith
  · nlinarith
  · nlinarith
  · nlinarith
  · nlinarith
  · nlinarith
  · nlinarith
  · norm_num
  · norm_num
  · nlinarith
  · nlinarith

/-- Helper: frame facts of one generator draw. -/
theorem random_frame (st : GameState) :
    (GameState.random st).2.guests = st.guests ∧
    (GameState.random st).2.coasters = st.coasters ∧
    (GameState.random st).2.speed = st.speed :=
  ⟨rfl, rfl, rfl⟩

/-- The state fields a guest step may never touch. -/
def state_frame_eq (a b : GameState) : Prop :=
  a.guests = b.guests ∧ a.coasters = b.coasters ∧ a.speed = b.speed

/-- Helper: state_frame_eq is reflexive and transitive enough for
composition. -/
theorem state_frame_eq_trans {a b c : GameState}
    (h1 : state_frame_eq a b) (h2 : state_frame_eq b c) : state_frame_eq a c :=
  ⟨h1.1.trans h2.1, h1.2.1.trans h2.2.1, h1.2.2.trans h2.2.2⟩

/-- Helper: the Queuing and Riding branch leaves the state frame alone. -/
theorem guest_queue_step_frame (g : Guest) (st : GameState) (dt : ℚ)
    (ps : GuestState) : state_frame_eq (guest_queue_step g st dt ps).2 st := by
  unfold guest_queue_step GameState.random state_frame_eq
  dsimp only
  split_ifs <;> exact ⟨rfl, rfl, rfl⟩

/-- Helper: the Eating and Shopping branch leaves the state frame alone. -/
theorem guest_activity_step_frame (g : Guest) (st : GameState) (dt : ℚ)
    (ps : GuestState) : state_frame_eq (guest_activity_step g st dt ps).2 st := by
  unfold guest_activity_step state_frame_eq
  dsimp only
  split_ifs <;> exact ⟨rfl, rfl, rfl⟩

/-- Helper: destination seeking leaves the state frame alone. -/
theorem guest_seek_frame (g : Guest) (st : GameState) :
    state_frame_eq (guest_seek g st).2 st := by
  unfold guest_seek GameState.random state_frame_eq
  dsimp only
  split
  · split
    · split
      · exact ⟨rfl, rfl, rfl⟩
      · exact ⟨rfl, rfl, rfl⟩
    · exact ⟨rfl, rfl, rfl⟩
  · exact ⟨rfl, rfl, rfl⟩

/-- Helper: arrival leaves the state frame alone (cash aside). -/
theorem guest_arrive_frame (g : Guest) (st : GameState) (k : TargetKind)
    (ps : GuestState) : state_frame_eq (guest_arrive g st k ps).2 st := by
  unfold guest_arrive GameState.random state_frame_eq
  dsimp only
  split_ifs
  · cases k <;> exact ⟨rfl, rfl, rfl⟩
  · exact ⟨rfl, rfl, rfl⟩

/-- Helper: wandering leaves the state frame alone. -/
theorem guest_wander_frame (g : Guest) (st : GameState) (n : Nat)
    (ps : GuestState) : state_frame_eq (guest_wander g st n ps).2 st := by
  unfold guest_wander GameState.random state_frame_eq
  dsimp only
  split_ifs <;> exact ⟨rfl, rfl, rfl⟩

/-- Helper: movement leaves the state frame alone. -/
theorem guest_move_frame (g : Guest) (st : GameState) (n : Nat)
    (ps : GuestState) : state_frame_eq (guest_move g st n ps).2 st := by
  unfold guest_move
  dsimp only
  split
  · split
    · split
      · exact ⟨rfl, rfl, rfl⟩
      · split
        · exact guest_arrive_frame _ _ _ _
        · exact guest_wander_frame _ _ _ _
    · exact ⟨rfl, rfl, rfl⟩
  · exact ⟨rfl, rfl, rfl⟩

/-- Helper: the per-guest update never touches the guest list, the
coaster list or the speed of the threaded state. -/
theorem update_guest_frame (g : Guest) (st : GameState) (dt : ℚ) (n : Nat) :
    state_frame_eq (update_guest g st dt n).2 st := by
  unfold update_guest
  dsimp only
  split
  all_goals first
    | exact guest_queue_step_frame _ _ _ _
    | exact guest_activity_step_frame _ _ _ _
    | exact state_frame_eq_trans
        (guest_move_frame (guest_seek (guest_drift g dt) st).1
          (guest_seek (guest_drift g dt) st).2 n g.state)
        (guest_seek_frame (guest_drift g dt) st)

/-- Helper: the id-snapshot pass preserves a per-guest invariant that is
stable under the per-guest update, and it never touches the coasters or
the speed. -/
theorem update_guests_pass_inv (n : Nat) (P : Guest → Prop)
    (hP : ∀ g st, P g → P (update_guest g st 1 n).1) :
    ∀ (ids : List Nat) (st : GameState),
      (∀ g ∈ st.guests, P g) →
      (∀ g ∈ (update_guests_pass n ids st).guests, P g) ∧
      (update_guests_pass n ids st).coasters = st.coasters ∧
      (update_guests_pass n ids st).speed = st.speed := by
  intro ids
  induction ids with
  | nil => intro st h; exact ⟨h, rfl, rfl⟩
  | cons id ids ih =>
    intro st h
    unfold update_guests_pass
    cases hidx : st.guests.findIdx? (fun gg => gg.id = id) with
    | none => exact ih st h
    | some idx =>
      dsimp only
      cases hguest : st.guests.get? idx with
      | none => exact ih st h
      | some guest =>
        dsimp only
        have hmem : guest ∈ st.guests := List.get?_mem hguest
        set st1 : GameState := { st with guests := st.guests.eraseIdx idx } with hst1
        obtain ⟨hfg, hfc, hfs⟩ := update_guest_frame guest st1 1 n
        set st2 : GameState := { (update_guest guest st1 1 n).2 with
          guests := (update_guest guest st1 1 n).2.guests ++
            [(update_guest guest st1 1 n).1] } with hst2
        have hall : ∀ g ∈ st2.guests, P g := by
          intro g hg
          rw [hst2] at hg
          simp only [List.mem_append, List.mem_singleton, hfg] at hg
          rcases hg with hg | hg
          · exact h g ((List.eraseIdx_sublist st.guests idx).mem (by
              simpa [hst1] using hg))
          · subst hg
            exact hP guest st1 (h guest hmem)
        obtain ⟨ha, hb, hcs⟩ := ih st2 hall
        refine ⟨ha, ?_, ?_⟩
        · rw [hb, hst2]
          exact hfc
        · rw [hcs, hst2]
          exact hfs

/-- Helper: update_guests preserves a stable per-guest invariant and the
coaster list and speed. -/
theorem update_guests_inv (st : GameState) (P : Guest → Prop)
    (hP : ∀ (g : Guest) (st0 : GameState) (n : Nat), P g → P (update_guest g st0 1 n).1)
    (h : ∀ g ∈ st.guests, P g) :
    (∀ g ∈ (update_guests st).guests, P g) ∧
    (update_guests st).coasters = st.coasters ∧
    (update_guests st).speed = st.speed := by
  unfold update_guests
  obtain ⟨ha, hb, hc⟩ := update_guests_pass_inv st.grid_size P
    (fun g st0 => hP g st0 st.grid_size) (st.guests.map Guest.id) st h
  unfold GameState.update_park_rating
  split_ifs with he
  · exact ⟨ha, hb, hc⟩
  · exact ⟨ha, hb, hc⟩

/-- Helper: frame facts of Guest::new on the threaded state. -/
theorem guest_new_frame (idv : Nat) (x y : Int) (nv : Nat) (st : GameState) :
    state_frame_eq (Guest.new idv x y nv st).2 st := by
  unfold Guest.new GameState.random state_frame_eq
  dsimp only
  exact ⟨rfl, rfl, rfl⟩

/-- Helper: admission preserves a per-guest invariant that holds of the
admitted candidate, plus the coaster list and speed. -/
theorem admit_guest_inv (st : GameState) (guest : Guest) (P : Guest → Prop)
    (hg : entry_fee ≤ guest.cash →
      P { guest with
          cash := guest.cash - entry_fee,
          total_spent := guest.total_spent + entry_fee })
    (h : ∀ g ∈ st.guests, P g) :
    (∀ g ∈ (admit_guest st guest).guests, P g) ∧
    (admit_guest st guest).coasters = st.coasters ∧
    (admit_guest st guest).speed = st.speed := by
  unfold admit_guest
  split_ifs with hc
  · refine ⟨?_, rfl, rfl⟩
    intro g hgm
    simp only [List.mem_append, List.mem_singleton] at hgm
    rcases hgm with hgm | hgm
    · exact h g hgm
    · subst hgm
      exact hg hc
  · exact ⟨h, rfl, rfl⟩

/-- Helper: the spawn attempt preserves a per-guest invariant that holds
of every admitted fresh guest, plus the coaster list and speed. -/
theorem spawn_attempt_inv (st : GameState) (P : Guest → Prop)
    (hadm : ∀ (idv : Nat) (x y : Int) (nv : Nat) (st0 : GameState),
      entry_fee ≤ (Guest.new idv x y nv st0).1.cash →
      P { (Guest.new idv x y nv st0).1 with
          cash := (Guest.new idv x y nv st0).1.cash - entry_fee,
          total_spent := (Guest.new idv x y nv st0).1.total_spent + entry_fee })
    (h : ∀ g ∈ st.guests, P g) :
    (∀ g ∈ (spawn_attempt st).guests, P g) ∧
    (spawn_attempt st).coasters = st.coasters ∧
    (spawn_attempt st).speed = st.speed := by
  unfold spawn_attempt
  dsimp only
  split_ifs with he
  · have hfr : state_frame_eq
        (Guest.new st.random.2.next_guest_id_fn.1
          (st.find_entrance_tiles.getD
            (ratToUsize (st.random.1 * (st.find_entrance_tiles.length : ℚ)) %
              st.find_entrance_tiles.length) (0, 0)).1
          (st.find_entrance_tiles.getD
            (ratToUsize (st.random.1 * (st.find_entrance_tiles.length : ℚ)) %
              st.find_entrance_tiles.length) (0, 0)).2
          st.random.2.next_guest_id_fn.2.grid_size
          st.random.2.next_guest_id_fn.2).2 st :=
      state_frame_eq_trans (guest_new_frame _ _ _ _ _) ⟨rfl, rfl, rfl⟩
    obtain ⟨ha, hb, hc⟩ := admit_guest_inv _ _ P (hadm _ _ _ _ _)
      (fun g hg => h g (by rw [← hfr.1]; exact hg))
    exact ⟨ha, hb.trans hfr.2.1, hc.trans hfr.2.2⟩
  · exact ⟨h, rfl, rfl⟩

/-- Helper: spawn_guests preserves a per-guest invariant that holds of
every admitted fresh guest, and the coaster list and speed. -/
theorem spawn_guests_inv (st : GameState) (P : Guest → Prop)
    (hadm : ∀ (idv : Nat) (x y : Int) (nv : Nat) (st0 : GameState),
      entry_fee ≤ (Guest.new idv x y nv st0).1.cash →
      P { (Guest.new idv x y nv st0).1 with
          cash := (Guest.new idv x y nv st0).1.cash - entry_fee,
          total_spent := (Guest.new idv x y nv st0).1.total_spent + entry_fee })
    (h : ∀ g ∈ st.guests, P g) :
    (∀ g ∈ (spawn_guests st).guests, P g) ∧
    (spawn_guests st).coasters = st.coasters ∧
    (spawn_guests st).speed = st.speed := by
  have hsp : (∀ g ∈ (spawn_attempt st.random.2).guests, P g) ∧
      (spawn_attempt st.random.2).coasters = st.coasters ∧
      (spawn_attempt st.random.2).speed = st.speed := by
    obtain ⟨ha, hb, hc⟩ := spawn_attempt_inv st.random.2 P hadm
      (fun g hg => h g hg)
    exact ⟨ha, hb, hc⟩
  unfold spawn_guests
  dsimp only
  split_ifs with h1 h2 h3 h4 h5
  · exact ⟨h, rfl, rfl⟩
  · exact ⟨h, rfl, rfl⟩
  · exact hsp
  · exact ⟨h, rfl, rfl⟩
  · exact hsp
  · exact ⟨h, rfl, rfl⟩

/-- Helper: the calendar advance touches no entity state. -/
theorem advance_time_frame (st : GameState) :
    (st.advance_time).guests = st.guests ∧
    (st.advance_time).coasters = st.coasters ∧
    (st.advance_time).speed = st.speed := by
  unfold GameState.advance_time
  dsimp only
  split_ifs <;> exact ⟨rfl, rfl, rfl⟩

/-- Helper: the vehicle update touches only the coaster list. -/
theorem update_trains_frame (st st' : GameState)
    (h : update_trains st = some st') : st'.guests = st.guests := by
  simp only [update_trains] at h
  obtain ⟨cs, hcs, h2⟩ := Option.map_eq_some'.mp h
  subst h2
  rfl

/-- Helper: one whole tick preserves a per-guest invariant stable under
the per-guest update and true of admitted fresh guests. -/
theorem tick_inv (P : Guest → Prop)
    (hP : ∀ (g : Guest) (st0 : GameState) (n : Nat), P g → P (update_guest g st0 1 n).1)
    (hadm : ∀ (idv : Nat) (x y : Int) (nv : Nat) (st0 : GameState),
      entry_fee ≤ (Guest.new idv x y nv st0).1.cash →
      P { (Guest.new idv x y nv st0).1 with
          cash := (Guest.new idv x y nv st0).1.cash - entry_fee,
          total_spent := (Guest.new idv x y nv st0).1.total_spent + entry_fee })
    (st st' : GameState) (h : tick st = some st')
    (hi : ∀ g ∈ st.guests, P g) : ∀ g ∈ st'.guests, P g := by
  unfold tick at h
  split_ifs at h with hsp
  · cases h
    exact hi
  · obtain ⟨hadvg, -, -⟩ := advance_time_frame st
    obtain ⟨hu, -, -⟩ := update_guests_inv st.advance_time P hP
      (by rw [hadvg]; exact hi)
    obtain ⟨hs, -, -⟩ := spawn_guests_inv (update_guests st.advance_time) P hadm hu
    intro g hg
    rw [update_trains_frame _ _ h] at hg
    exact hs g hg

/-- Helper: n ticks preserve such a per-guest invariant. -/
theorem tickN_inv (P : Guest → Prop)
    (hP : ∀ (g : Guest) (st0 : GameState) (n : Nat), P g → P (update_guest g st0 1 n).1)
    (hadm : ∀ (idv : Nat) (x y : Int) (nv : Nat) (st0 : GameState),
      entry_fee ≤ (Guest.new idv x y nv st0).1.cash →
      P { (Guest.new idv x y nv st0).1 with
          cash := (Guest.new idv x y nv st0).1.cash - entry_fee,
          total_spent := (Guest.new idv x y nv st0).1.total_spent + entry_fee }) :
    ∀ (n : Nat) (st st' : GameState), tickN st n = some st' →
      (∀ g ∈ st.guests, P g) → ∀ g ∈ st'.guests, P g := by
  intro n
  induction n with
  | zero =>
    intro st st' h hi
    cases h
    exact hi
  | succ n ih =>
    intro st st' h hi
    unfold tickN at h
    obtain ⟨stm, hm, hstep⟩ := Option.bind_eq_some.mp h
    exact tick_inv P hP hadm stm st' hstep (ih st stm hm hi)

/-- Helper: the needs drift never touches cash. -/
theorem guest_drift_cash (g : Guest) (dt : ℚ) :
    (guest_drift g dt).cash = g.cash := rfl

/-- Helper: the queue and ride branch never touches cash. -/
theorem guest_queue_step_cash (g : Guest) (st : GameState) (dt : ℚ)
    (ps : GuestState) : (guest_queue_step g st dt ps).1.cash = g.cash := by
  unfold guest_queue_step
  dsimp only
  split_ifs <;> rfl

/-- Helper: the eating and shopping branch never touches cash. -/
theorem guest_activity_step_cash (g : Guest) (st : GameState) (dt : ℚ)
    (ps : GuestState) : (guest_activity_step g st dt ps).1.cash = g.cash := by
  unfold guest_activity_step
  dsimp only
  split_ifs <;> rfl

/-- Helper: destination seeking never touches cash. -/
theorem guest_seek_cash (g : Guest) (st : GameState) :
    (guest_seek g st).1.cash = g.cash := by
  unfold guest_seek
  dsimp only
  split
  · split
    · split
      · unfold assign_path
        dsimp only
        split_ifs <;> rfl
      · rfl
    · rfl
  · rfl

/-- Helper: arrival keeps nonnegative cash nonnegative, since the fee is
deducted only under the affordability guard. -/
theorem guest_arrive_cash (g : Guest) (st : GameState) (k : TargetKind)
    (ps : GuestState) (hc : 0 ≤ g.cash) :
    0 ≤ (guest_arrive g st k ps).1.cash := by
  unfold guest_arrive
  dsimp only
  split_ifs with hfee
  · cases k <;> (dsimp only; omega)
  · exact hc

/-- Helper: wandering never touches cash. -/
theorem guest_wander_cash (g : Guest) (st : GameState) (n : Nat)
    (ps : GuestState) : (guest_wander g st n ps).1.cash = g.cash := by
  unfold guest_wander
  dsimp only
  split_ifs <;> rfl

/-- Helper: movement keeps nonnegative cash nonnegative. -/
theorem guest_move_cash (g : Guest) (st : GameState) (n : Nat)
    (ps : GuestState) (hc : 0 ≤ g.cash) :
    0 ≤ (guest_move g st n ps).1.cash := by
  unfold guest_move
  dsimp only
  split
  · split
    · split
      · exact hc
      · split
        · exact guest_arrive_cash _ _ _ _ hc
        · rw [guest_wander_cash
            { g with tile_x := g.target_x, tile_y := g.target_y, progress := 0 }
            st n ps]
          exact hc
    · exact hc
  · exact hc

/-- Helper: one whole per-guest update keeps nonnegative cash
nonnegative. -/
theorem update_guest_cash (g : Guest) (st : GameState) (n : Nat)
    (hc : 0 ≤ g.cash) : 0 ≤ (update_guest g st 1 n).1.cash := by
  have hdc : (guest_drift g 1).cash = g.cash := guest_drift_cash g 1
  unfold update_guest
  dsimp only
  split
  all_goals first
    | (rw [guest_queue_step_cash (guest_drift g 1) st 1 g.state, hdc]
       exact hc)
    | (rw [guest_activity_step_cash (guest_drift g 1) st 1 g.state, hdc]
       exact hc)
    | (exact guest_move_cash (guest_seek (guest_drift g 1) st).1
        (guest_seek (guest_drift g 1) st).2 n g.state
        (by rw [guest_seek_cash, hdc]; exact hc))

/-- C6: every guest whose five needs and happiness lie in [0, 100] keeps
all six values in [0, 100] after any number of ticks; guests admitted
during those ticks satisfy the same bounds, since Guest::new draws each
stat from the unit-interval generator. -/
theorem guest_needs_in_range (st st' : GameState) (n : Nat)
    (h : tickN st n = some st')
    (hi : ∀ g ∈ st.guests, needs_in_range g) :
    ∀ g ∈ st'.guests, needs_in_range g := by
  refine tickN_inv needs_in_range
    (fun g st0 m hg => (update_guest_inv g st0 m hg).1)
    (fun idv x y nv st0 hfee => ?_) n st st' h hi
  have hnew := guest_new_needs idv x y nv st0
  unfold needs_in_range at hnew ⊢
  dsimp only
  exact hnew

/-- Witness for C6 on the concrete paused one-guest state. -/
theorem guest_needs_in_range_witness : needs_in_range cx_guest := by
  have ht : tickN cx_paused_state 1 = some cx_paused_state := rfl
  have hi : ∀ g ∈ cx_paused_state.guests, needs_in_range g := by
    intro g hg
    simp only [cx_paused_state, cx_guest_state, base_state,
      List.mem_singleton] at hg
    subst hg
    norm_num [needs_in_range, cx_guest]
  exact guest_needs_in_range cx_paused_state cx_paused_state 1 ht hi cx_guest
    (List.mem_singleton.mpr rfl)

/-- C7: an arrival fee is deducted only when the guest's cash covers it
(the sub-fee branch leaves cash unchanged), and consequently every guest
whose cash is nonnegative stays at nonnegative cash after any number of
ticks; guests admitted during those ticks are charged the entry fee only
under the affordability guard, keeping them nonnegative as well. -/
theorem guest_cash_nonneg (st st' : GameState) (n : Nat)
    (h : tickN st n = some st')
    (hi : ∀ g ∈ st.guests, 0 ≤ g.cash) :
    (∀ (g : Guest) (st0 : GameState) (k : TargetKind) (ps : GuestState),
      g.cash < target_fee k → (guest_arrive g st0 k ps).1.cash = g.cash) ∧
    ∀ g ∈ st'.guests, 0 ≤ g.cash := by
  constructor
  · intro g st0 k ps hlt
    unfold guest_arrive
    dsimp only
    rw [if_neg (by omega : ¬ g.cash ≥ target_fee k)]
  · refine tickN_inv (fun g => 0 ≤ g.cash)
      (fun g st0 m hg => update_guest_cash g st0 m hg)
      (fun idv x y nv st0 hfee => ?_) n st st' h hi
    show 0 ≤ (Guest.new idv x y nv st0).1.cash - entry_fee
    omega

/-- Witness for C7 on the concrete paused one-guest state: the poor
guest's arrival at a ride (fee 15, cash 10) deducts nothing, and the
resident guest keeps nonnegative cash across the tick. -/
theorem guest_cash_nonneg_witness :
    (guest_arrive cx_poor_guest cx_guest_state TargetKind.ride
      GuestState.walking).1.cash = cx_poor_guest.cash ∧
    0 ≤ cx_guest.cash := by
  have h := guest_cash_nonneg cx_paused_state cx_paused_state 1 rfl (by decide)
  exact ⟨h.1 cx_poor_guest cx_guest_state TargetKind.ride GuestState.walking
      (by decide),
    h.2 cx_guest (List.mem_singleton.mpr rfl)⟩

/-- Helper: the head of a nonempty left factor survives an append. -/
theorem head_append_left {α : Type} (l l' : List α) (a : α)
    (h : l.head? = some a) : (l ++ l').head? = some a := by
  cases l with
  | nil => cases h
  | cons b t => exact h

/-- Helper: the head of an append comes from a nonempty left factor. -/
theorem head_append_left_inv {α : Type} (l l' : List α) (a : α)
    (hne : l ≠ []) (h : (l ++ l').head? = some a) : l.head? = some a := by
  cases l with
  | nil => exact absurd rfl hne
  | cons b t => exact h

/-- Helper: a list of equal naturals is sorted. -/
theorem sorted_of_const {l : List Nat} {a : Nat} (h : ∀ x ∈ l, x = a) :
    l.Sorted (· ≤ ·) := by
  induction l with
  | nil => exact List.sorted_nil
  | cons b t ih =>
    refine List.sorted_cons.mpr
      ⟨fun x hx => ?_, ih fun x hx => h x (List.mem_cons_of_mem b hx)⟩
    have h1 := h b (List.mem_cons_self b t)
    have h2 := h x (List.mem_cons_of_mem b hx)
    omega

/-- Helper: a filter that keeps everything. -/
theorem filter_all {α : Type} (p : α → Bool) :
    ∀ l : List α, (∀ x ∈ l, p x = true) → l.filter p = l := by
  intro l
  induction l with
  | nil => intro h; rfl
  | cons a t ih =>
    intro h
    rw [List.filter_cons, if_pos (h a (List.mem_cons_self a t)),
      ih fun x hx => h x (List.mem_cons_of_mem a hx)]

/-- Helper: a discovery chain extends by one admissible step. -/
theorem chainFrom_snoc {g : Grid} {s c n : Cell} {l : List Cell}
    (h : ChainFrom g s (l ++ [c])) (hstep : StepTo g c n) :
    ChainFrom g s (l ++ [c] ++ [n]) := by
  obtain ⟨hhead, hchain⟩ := h
  refine ⟨head_append_left _ _ s hhead, ?_⟩
  rw [List.chain'_append]
  refine ⟨hchain, List.chain'_singleton n, ?_⟩
  intro x hx y hy
  rw [List.getLast?_concat] at hx
  rw [Option.mem_def] at hx hy
  cases hx
  cases hy
  exact hstep

/-- Helper: a discovery chain of k+1 cells witnesses reachability in k
steps. -/
theorem chainFrom_reaches {g : Grid} {s : Cell} :
    ∀ (p : List Cell) (c : Cell), ChainFrom g s (p ++ [c]) →
      Reaches g s p.length c := by
  intro p
  induction p using List.reverseRecOn with
  | nil =>
    intro c h
    obtain ⟨hh, -⟩ := h
    cases hh
    exact Reaches.refl
  | append_singleton p b ih =>
    intro c h
    obtain ⟨hh, hch⟩ := h
    rw [List.chain'_append] at hch
    obtain ⟨hch1, -, hlink⟩ := hch
    have hstep : StepTo g b c := by
      refine hlink b ?_ c (Option.mem_def.mpr rfl)
      rw [List.getLast?_concat]
      exact Option.mem_def.mpr rfl
    have hr : Reaches g s p.length b :=
      ih b ⟨head_append_left_inv _ _ s (by simp) hh, hch1⟩
    have := Reaches.tail hr hstep
    rw [List.length_append, List.length_singleton]
    exact this

/-- Helper: zero-step reachability is equality. -/
theorem reaches_zero {g : Grid} {a b : Cell} (h : Reaches g a 0 b) : a = b := by
  cases h
  rfl

/-- Helper: the distinct in-bounds cells of a visited list number at most
the grid area. -/
theorem in_card_le (n : Nat) (v : List Cell) : in_card n v ≤ n * n := by
  unfold in_card
  have hsub : (v.filter (inBoundsB n)).toFinset ⊆
      (Finset.range n ×ˢ Finset.range n).image
        (fun ab : Nat × Nat => ((ab.1 : Int), (ab.2 : Int))) := by
    intro x hx
    rw [List.mem_toFinset, List.mem_filter] at hx
    obtain ⟨-, hb⟩ := hx
    simp only [inBoundsB, decide_eq_true_eq] at hb
    obtain ⟨h1, h2, h3, h4⟩ := hb
    refine Finset.mem_image.mpr ⟨(x.1.toNat, x.2.toNat), ?_, ?_⟩
    · rw [Finset.mem_product]
      constructor <;> rw [Finset.mem_range] <;> omega
    · show ((x.1.toNat : Int), (x.2.toNat : Int)) = x
      rw [Int.toNat_of_nonneg h1, Int.toNat_of_nonneg h3]
  refine le_trans (Finset.card_le_card hsub) (le_trans Finset.card_image_le ?_)
  rw [Finset.card_product, Finset.card_range]

/-- Helper: appending fresh distinct in-bounds cells grows the in-bounds
count by exactly their number. -/
theorem in_card_append_fresh (n : Nat) (v fresh : List Cell)
    (hnd : fresh.Nodup) (hf : ∀ x ∈ fresh, x ∉ v ∧ inBoundsB n x = true) :
    in_card n (v ++ fresh) = in_card n v + fresh.length := by
  unfold in_card
  rw [List.filter_append, filter_all (inBoundsB n) fresh fun x hx => (hf x hx).2,
    List.toFinset_append]
  have hdisj : Disjoint (v.filter (inBoundsB n)).toFinset fresh.toFinset := by
    rw [Finset.disjoint_left]
    intro a hav haf
    rw [List.mem_toFinset, List.mem_filter] at hav
    rw [List.mem_toFinset] at haf
    exact (hf a haf).1 hav.1
  rw [Finset.card_union_of_disjoint hdisj, List.toFinset_card_of_nodup hnd]

/-- Helper: full specification of one BFS expansion fold: the fresh cells
are appended to both the queue (paired with the extended path) and the
visited list, each fresh cell is an unvisited in-bounds walkable neighbor
of the expanded cell, and conversely every in-bounds walkable offset
neighbor ends up in the output visited list. -/
theorem bfs_expand_fold_spec (g : Grid) (c : Cell) (p : List Cell) :
    ∀ (ds : List Cell) (a : List (Cell × List Cell)) (v : List Cell),
      ∃ fresh : List Cell,
        (ds.foldl (bfs_expand g c p) (a, v)).2 = v ++ fresh ∧
        (ds.foldl (bfs_expand g c p) (a, v)).1 =
          a ++ fresh.map (fun n => (n, p ++ [c])) ∧
        fresh.Nodup ∧
        (∀ n ∈ fresh, n ∉ v ∧ inBoundsB g.length n = true ∧
          walkableAt g n = true ∧
          ∃ dd ∈ ds, n = (c.1 + dd.1, c.2 + dd.2)) ∧
        (∀ dd ∈ ds, inBoundsB g.length (c.1 + dd.1, c.2 + dd.2) = true →
          walkableAt g (c.1 + dd.1, c.2 + dd.2) = true →
          (c.1 + dd.1, c.2 + dd.2) ∈ v ++ fresh) := by
  intro ds
  induction ds with
  | nil =>
    intro a v
    exact ⟨[], by simp, by simp, List.nodup_nil,
      fun n hn => absurd hn (List.not_mem_nil n),
      fun dd hdd => absurd hdd (List.not_mem_nil dd)⟩
  | cons dd ds ih =>
    intro a v
    rw [List.foldl_cons]
    have hstep : bfs_expand g c p (a, v) dd =
        (if ¬ inBoundsB g.length (c.1 + dd.1, c.2 + dd.2) = true then (a, v)
         else if (c.1 + dd.1, c.2 + dd.2) ∈ v then (a, v)
         else if ¬ walkableAt g (c.1 + dd.1, c.2 + dd.2) = true then (a, v)
         else (a ++ [((c.1 + dd.1, c.2 + dd.2), p ++ [c])],
               v ++ [(c.1 + dd.1, c.2 + dd.2)])) := rfl
    by_cases h1 : inBoundsB g.length (c.1 + dd.1, c.2 + dd.2) = true
    · by_cases h2 : (c.1 + dd.1, c.2 + dd.2) ∈ v
      · rw [hstep, if_neg (not_not_intro h1), if_pos h2]
        obtain ⟨fresh, hv, ha, hnd, hprops, hconv⟩ := ih a v
        refine ⟨fresh, hv, ha, hnd, ?_, ?_⟩
        · intro n hn
          obtain ⟨hn1, hn2, hn3, dd', hdd', hoff⟩ := hprops n hn
          exact ⟨hn1, hn2, hn3, dd', List.mem_cons_of_mem dd hdd', hoff⟩
        · intro dd' hdd' hb hw
          rcases List.mem_cons.mp hdd' with h | h
          · subst h
            exact List.mem_append_left fresh h2
          · exact hconv dd' h hb hw
      · by_cases h3 : walkableAt g (c.1 + dd.1, c.2 + dd.2) = true
        · rw [hstep, if_neg (not_not_intro h1), if_neg h2,
            if_neg (not_not_intro h3)]
          obtain ⟨fresh, hv, ha, hnd, hprops, hconv⟩ :=
            ih (a ++ [((c.1 + dd.1, c.2 + dd.2), p ++ [c])])
              (v ++ [(c.1 + dd.1, c.2 + dd.2)])
          refine ⟨(c.1 + dd.1, c.2 + dd.2) :: fresh, ?_, ?_, ?_, ?_, ?_⟩
          · rw [hv, List.append_assoc]
            rfl
          · rw [ha, List.append_assoc]
            rfl
          · rw [List.nodup_cons]
            refine ⟨fun hmem => ?_, hnd⟩
            exact (hprops _ hmem).1
              (List.mem_append_right v (List.mem_singleton.mpr rfl))
          · intro n hn
            rcases List.mem_cons.mp hn with h | h
            · subst h
              exact ⟨h2, h1, h3, dd, List.mem_cons_self dd ds, rfl⟩
            · obtain ⟨hn1, hn2, hn3, dd', hdd', hoff⟩ := hprops n h
              refine ⟨fun hmem => hn1 (List.mem_append_left _ hmem), hn2, hn3,
                dd', List.mem_cons_of_mem dd hdd', hoff⟩
          · intro dd' hdd' hb hw
            rcases List.mem_cons.mp hdd' with h | h
            · subst h
              exact List.mem_append_right v (List.mem_cons_self _ _)
            · have := hconv dd' h hb hw
              rw [List.append_assoc] at this
              exact this
        · rw [hstep, if_neg (not_not_intro h1), if_neg h2, if_pos (by exact h3)]
          obtain ⟨fresh, hv, ha, hnd, hprops, hconv⟩ := ih a v
          refine ⟨fresh, hv, ha, hnd, ?_, ?_⟩
          · intro n hn
            obtain ⟨hn1, hn2, hn3, dd', hdd', hoff⟩ := hprops n hn
            exact ⟨hn1, hn2, hn3, dd', List.mem_cons_of_mem dd hdd', hoff⟩
          · intro dd' hdd' hb hw
            rcases List.mem_cons.mp hdd' with h | h
            · subst h
              exact absurd hw h3
            · exact hconv dd' h hb hw
    · rw [hstep, if_pos (by exact h1)]
      obtain ⟨fresh, hv, ha, hnd, hprops, hconv⟩ := ih a v
      refine ⟨fresh, hv, ha, hnd, ?_, ?_⟩
      · intro n hn
        obtain ⟨hn1, hn2, hn3, dd', hdd', hoff⟩ := hprops n hn
        exact ⟨hn1, hn2, hn3, dd', List.mem_cons_of_mem dd hdd', hoff⟩
      · intro dd' hdd' hb hw
        rcases List.mem_cons.mp hdd' with h | h
        · subst h
          exact absurd hb h1
        · exact hconv dd' h hb hw

/-- Helper: with every queued entry at depth at least L, every cell of
minimal distance below L (and below the step budget) is already
visited. -/
theorem bfs_chase {g : Grid} {s : Cell} {m : Nat}
    {q : List (Cell × List Cell)} {visited : List Cell}
    (inv : BfsInv g s m q visited) (L : Nat)
    (hq : ∀ e ∈ q, L ≤ e.2.length) :
    ∀ (j : Nat) (v : Cell), Reaches g s j v → j < m → j < L → v ∈ visited := by
  intro j v hreach
  induction hreach with
  | refl =>
    intro h1 h2
    exact inv.sinv
  | tail hr hstep ih =>
    rename_i n b w
    intro hm hL
    have hb : b ∈ visited := ih (by omega) (by omega)
    rcases inv.vreach b hb with h1 | h2 | h3
    · exfalso
      simp only [entry_cells, List.mem_map] at h1
      obtain ⟨e, he, heb⟩ := h1
      have h5 := inv.minimal e he n (by rw [heb]; exact hr)
      have h6 := hq e he
      omega
    · exact h2 _ hstep
    · exact absurd (h3 _ hr) (by omega)

/-- Helper: a cell not yet visited while every queued entry sits at depth
at least L < m has minimal distance at least L + 1 (the BFS layering
property, which makes freshly enqueued entries carry minimal paths). -/
theorem bfs_fresh_minimal {g : Grid} {s : Cell} {m : Nat}
    {q : List (Cell × List Cell)} {visited : List Cell}
    (inv : BfsInv g s m q visited) (L : Nat)
    (hq : ∀ e ∈ q, L ≤ e.2.length) (hLm : L < m)
    {n : Cell} (hn : n ∉ visited) :
    ∀ j, Reaches g s j n → L + 1 ≤ j := by
  intro j hr
  by_contra hlt
  push_neg at hlt
  cases hr with
  | refl => exact hn inv.sinv
  | tail hr0 hstep =>
    rename_i k b
    have hb : b ∈ visited := bfs_chase inv L hq k b hr0 (by omega) (by omega)
    rcases inv.vreach b hb with h1 | h2 | h3
    · simp only [entry_cells, List.mem_map] at h1
      obtain ⟨e, he, heb⟩ := h1
      have h5 := inv.minimal e he k (by rw [heb]; exact hr0)
      have h6 := hq e he
      omega
    · exact hn (h2 _ hstep)
    · exact absurd (h3 _ hr0) (by omega)

/-- Helper: dropping a queue entry at or past the step cutoff preserves
the BFS loop invariant. -/
theorem bfs_inv_cutoff {g : Grid} {s : Cell} {m : Nat} {c : Cell}
    {p : List Cell} {rest : List (Cell × List Cell)} {visited : List Cell}
    (inv : BfsInv g s m ((c, p) :: rest) visited) (hcut : m ≤ p.length) :
    BfsInv g s m rest visited := by
  have hsorted := inv.sorted
  rw [List.map_cons] at hsorted
  have hsc := List.sorted_cons.mp hsorted
  refine ⟨?_, ?_, hsc.2, ?_, ?_, inv.nodupv, inv.sinv, ?_⟩
  · exact fun e he => inv.chains e (List.mem_cons_of_mem _ he)
  · exact fun e he => inv.minimal e (List.mem_cons_of_mem _ he)
  · intro e he e0 h0
    have h1 := inv.spread e (List.mem_cons_of_mem _ he) (c, p) rfl
    have h2 : (fun e : Cell × List Cell => e.2.length) (c, p) ≤ e0.2.length := by
      refine hsc.1 _ ?_
      exact List.mem_map_of_mem _ (List.mem_of_mem_head? (Option.mem_def.mpr h0))
    dsimp only at h1 h2 ⊢
    omega
  · exact fun e he => inv.qsubv e (List.mem_cons_of_mem _ he)
  · intro v hv
    rcases inv.vreach v hv with h1 | h2 | h3
    · simp only [entry_cells, List.map_cons, List.mem_cons] at h1
      rcases h1 with h1 | h1
      · right; right
        intro j hj
        rw [h1] at hj
        have h5 := inv.minimal (c, p) (List.mem_cons_self _ _) j hj
        dsimp only at h5
        omega
      · left
        simp only [entry_cells]
        exact h1
    · right; left
      exact h2
    · right; right
      exact h3

/-- Helper: expanding the head entry preserves the BFS loop invariant:
the fresh neighbors are enqueued one layer deeper with minimal discovery
chains, and the expanded cell becomes fully explored. -/
theorem bfs_inv_expand {g : Grid} {s : Cell} {m : Nat} {c : Cell}
    {p : List Cell} {rest : List (Cell × List Cell)} {visited : List Cell}
    (inv : BfsInv g s m ((c, p) :: rest) visited) (hcut : p.length < m) :
    BfsInv g s m
      (rest ++ (dirs.foldl (bfs_expand g c p) ([], visited)).1)
      (dirs.foldl (bfs_expand g c p) ([], visited)).2 := by
  obtain ⟨fresh, hv, ha, hnd, hprops, hconv⟩ :=
    bfs_expand_fold_spec g c p dirs [] visited
  rw [hv, ha, List.nil_append]
  have hhead : (c, p) ∈ (c, p) :: rest := List.mem_cons_self _ _
  have hchainhead : ChainFrom g s (p ++ [c]) := inv.chains (c, p) hhead
  have hLq : ∀ e ∈ (c, p) :: rest, p.length ≤ e.2.length := by
    intro e he
    rcases List.mem_cons.mp he with h | h
    · rw [h]
    · have hsorted := inv.sorted
      rw [List.map_cons] at hsorted
      exact (List.sorted_cons.mp hsorted).1 _ (List.mem_map_of_mem _ h)
  have hsteps : ∀ n ∈ fresh, StepTo g c n := by
    intro n hn
    obtain ⟨-, h2, h3, dd, hdd, hoff⟩ := hprops n hn
    exact ⟨⟨dd, hdd, hoff⟩, h2, h3⟩
  have hrest_le : ∀ e ∈ rest, e.2.length ≤ p.length + 1 :=
    fun e he => inv.spread e (List.mem_cons_of_mem _ he) (c, p) rfl
  have hfresh_min : ∀ n ∈ fresh, ∀ j, Reaches g s j n → p.length + 1 ≤ j :=
    fun n hn => bfs_fresh_minimal inv p.length hLq hcut (hprops n hn).1
  refine ⟨?_, ?_, ?_, ?_, ?_, ?_, ?_, ?_⟩
  · intro e he
    rcases List.mem_append.mp he with h | h
    · exact inv.chains e (List.mem_cons_of_mem _ h)
    · rw [List.mem_map] at h
      obtain ⟨n, hn, hne⟩ := h
      subst hne
      dsimp only
      exact chainFrom_snoc hchainhead (hsteps n hn)
  · intro e he j hj
    rcases List.mem_append.mp he with h | h
    · exact inv.minimal e (List.mem_cons_of_mem _ h) j hj
    · rw [List.mem_map] at h
      obtain ⟨n, hn, hne⟩ := h
      subst hne
      dsimp only at hj ⊢
      rw [List.length_append, List.length_singleton]
      exact hfresh_min n hn j hj
  · rw [List.map_append]
    refine List.pairwise_append.mpr ⟨?_, ?_, ?_⟩
    · have hsorted := inv.sorted
      rw [List.map_cons] at hsorted
      exact (List.sorted_cons.mp hsorted).2
    · refine @sorted_of_const _ (p.length + 1) ?_
      intro x hx
      rw [List.map_map, List.mem_map] at hx
      obtain ⟨n, hn, hxe⟩ := hx
      rw [← hxe]
      dsimp only [Function.comp]
      rw [List.length_append, List.length_singleton]
    · intro x hx y hy
      rw [List.mem_map] at hx
      obtain ⟨e, he, hxe⟩ := hx
      rw [List.map_map, List.mem_map] at hy
      obtain ⟨n, hn, hye⟩ := hy
      have h1 := hrest_le e he
      rw [← hxe, ← hye]
      dsimp only [Function.comp]
      rw [List.length_append, List.length_singleton]
      omega
  · intro e he e0 h0
    have hall : ∀ e' ∈ rest ++ fresh.map (fun n => (n, p ++ [c])),
        e'.2.length ≤ p.length + 1 := by
      intro e' he'
      rcases List.mem_append.mp he' with h | h
      · exact hrest_le e' h
      · rw [List.mem_map] at h
        obtain ⟨n, hn, hne⟩ := h
        subst hne
        dsimp only
        rw [List.length_append, List.length_singleton]
    have hhead_ge : p.length ≤ e0.2.length := by
      have he0 : e0 ∈ rest ++ fresh.map (fun n => (n, p ++ [c])) :=
        List.mem_of_mem_head? (Option.mem_def.mpr h0)
      rcases List.mem_append.mp he0 with h | h
      · exact hLq e0 (List.mem_cons_of_mem _ h)
      · rw [List.mem_map] at h
        obtain ⟨n, hn, hne⟩ := h
        subst hne
        dsimp only
        rw [List.length_append, List.length_singleton]
        omega
    have h2 := hall e he
    omega
  · intro e he
    rcases List.mem_append.mp he with h | h
    · exact List.mem_append_left fresh (inv.qsubv e (List.mem_cons_of_mem _ h))
    · rw [List.mem_map] at h
      obtain ⟨n, hn, hne⟩ := h
      subst hne
      exact List.mem_append_right visited hn
  · rw [List.nodup_append]
    exact ⟨inv.nodupv, hnd, fun a hav haf => (hprops a haf).1 hav⟩
  · exact List.mem_append_left fresh inv.sinv
  · intro v hv
    rcases List.mem_append.mp hv with hvis | hfr
    · rcases inv.vreach v hvis with h1 | h2 | h3
      · simp only [entry_cells, List.map_cons, List.mem_cons] at h1
        rcases h1 with h1 | h1
        · right; left
          intro w hw
          obtain ⟨⟨dd, hdd, hoff⟩, hb, hwk⟩ := hw
          subst hoff
          rw [h1] at hb hwk ⊢
          exact hconv dd hdd hb hwk
        · left
          simp only [entry_cells, List.map_append, List.mem_append]
          left
          exact h1
      · right; left
        exact fun w hw => List.mem_append_left fresh (h2 w hw)
      · right; right
        exact h3
    · left
      simp only [entry_cells, List.map_append, List.mem_append, List.map_map]
      right
      rw [List.mem_map]
      exact ⟨v, hfr, rfl⟩

/-- Helper: soundness of the BFS loop: a nonempty result is the strictly
preceding discovery chain extended by the target, below the cutoff and of
minimal length among all reachability witnesses. -/
theorem bfs_loop_sound (g : Grid) (t s : Cell) (m : Nat) :
    ∀ (fuel : Nat) (q : List (Cell × List Cell)) (visited : List Cell),
      BfsInv g s m q visited →
      bfs_loop g t m fuel q visited ≠ [] →
      ∃ p : List Cell, bfs_loop g t m fuel q visited = p ++ [t] ∧
        ChainFrom g s (p ++ [t]) ∧ p.length < m ∧
        Reaches g s p.length t ∧ ∀ j, Reaches g s j t → p.length ≤ j := by
  intro fuel
  induction fuel with
  | zero =>
    intro q visited inv hne
    exact absurd rfl hne
  | succ fuel ih =>
    intro q visited inv hne
    rcases q with _ | ⟨⟨c, p⟩, rest⟩
    · exact absurd rfl hne
    · simp only [bfs_loop] at hne ⊢
      split_ifs at hne ⊢ with hcut htar
      · exact ih rest visited (bfs_inv_cutoff inv hcut) hne
      · subst htar
        have hchain : ChainFrom g s (p ++ [c]) :=
          inv.chains (c, p) (List.mem_cons_self _ _)
        refine ⟨p, rfl, hchain, by omega, chainFrom_reaches p c hchain, ?_⟩
        exact fun j hj => inv.minimal (c, p) (List.mem_cons_self _ _) j hj
      · exact ih _ _ (bfs_inv_expand inv (by omega)) hne

/-- Helper: completeness of the BFS loop: with the invariant, the target
queued whenever visited, enough fuel, and the target minimally reachable
within the cutoff, the loop does not come back empty. -/
theorem bfs_loop_complete (g : Grid) (s t : Cell) (m d : Nat)
    (hreach : Reaches g s d t) (hmin : ∀ j, Reaches g s j t → d ≤ j)
    (hdm : d < m) :
    ∀ (fuel : Nat) (q : List (Cell × List Cell)) (visited : List Cell),
      BfsInv g s m q visited →
      (t ∈ visited → t ∈ entry_cells q) →
      bfs_measure g.length q visited ≤ fuel →
      bfs_loop g t m fuel q visited ≠ [] := by
  intro fuel
  induction fuel with
  | zero =>
    intro q visited inv htq hmeas
    have hcard := in_card_le g.length visited
    unfold bfs_measure at hmeas
    omega
  | succ fuel ih =>
    intro q visited inv htq hmeas
    rcases q with _ | ⟨⟨c, p⟩, rest⟩
    · have ht : t ∈ visited :=
        bfs_chase inv m (fun e he => absurd he (List.not_mem_nil e)) d t
          hreach hdm hdm
      have h1 := htq ht
      simp [entry_cells] at h1
    · simp only [bfs_loop]
      split_ifs with hcut htar
      · refine ih rest visited (bfs_inv_cutoff inv hcut) ?_ ?_
        · intro htv
          have h1 := htq htv
          simp only [entry_cells, List.map_cons, List.mem_cons] at h1
          rcases h1 with h1 | h1
          · exfalso
            have h2 := inv.minimal (c, p) (List.mem_cons_self _ _) d
              (by rw [← h1]; exact hreach)
            dsimp only at h2
            omega
          · simp only [entry_cells]
            exact h1
        · unfold bfs_measure at hmeas ⊢
          simp only [List.length_cons] at hmeas
          omega
      · simp
      · obtain ⟨fresh, hv, ha, hnd, hprops, hconv⟩ :=
          bfs_expand_fold_spec g c p dirs [] visited
        refine ih _ _ (bfs_inv_expand inv (by omega)) ?_ ?_
        · intro htv
          rw [hv] at htv
          rcases List.mem_append.mp htv with h1 | h1
          · have h2 := htq h1
            simp only [entry_cells, List.map_cons, List.mem_cons] at h2
            rcases h2 with h2 | h2
            · exact absurd h2.symm htar
            · simp only [entry_cells, List.map_append, List.mem_append]
              left
              exact h2
          · simp only [entry_cells, List.map_append, List.mem_append]
            right
            rw [ha, List.nil_append, List.map_map, List.mem_map]
            exact ⟨t, h1, rfl⟩
        · have hk : (dirs.foldl (bfs_expand g c p) ([], visited)).1.length =
              fresh.length := by
            rw [ha, List.nil_append, List.length_map]
          have hic : in_card g.length (visited ++ fresh) =
              in_card g.length visited + fresh.length :=
            in_card_append_fresh g.length visited fresh hnd
              (fun x hx => ⟨(hprops x hx).1, (hprops x hx).2.1⟩)
          have hcard : in_card g.length (visited ++ fresh) ≤
              g.length * g.length := in_card_le g.length (visited ++ fresh)
          unfold bfs_measure at hmeas ⊢
          rw [hv, hic, List.length_append, hk, List.length_cons] at *
          have hcv := in_card_le g.length visited
          omega

/-- C1: find_path against true shortest paths: for equal endpoints it
returns the singleton target; for distinct endpoints whose minimal hop
count d satisfies d < max_steps it returns the discovery sequence of
d + 1 cells, a step chain from start whose last element is the target
(so the returned length is the hop count plus one, not the hop count);
for distinct endpoints with max_steps ≤ d, and for unreachable targets,
it returns the empty sequence. -/
theorem find_path_shortest_correct (g : Grid) (s t : Cell) (m : Nat) :
    (s = t → find_path g s t m = [t]) ∧
    (s ≠ t → ∀ d : Nat, Reaches g s d t → (∀ j, Reaches g s j t → d ≤ j) →
      (d < m → ∃ p : List Cell, find_path g s t m = p ++ [t] ∧
        ChainFrom g s (p ++ [t]) ∧ p.length = d) ∧
      (m ≤ d → find_path g s t m = [])) ∧
    ((∀ j, ¬ Reaches g s j t) → find_path g s t m = []) := by
  have inv0 : BfsInv g s m [(s, [])] [s] := by
    refine ⟨?_, ?_, ?_, ?_, ?_, List.nodup_singleton s,
      List.mem_singleton.mpr rfl, ?_⟩
    · intro e he
      rw [List.mem_singleton] at he
      subst he
      exact ⟨rfl, List.chain'_singleton s⟩
    · intro e he j hj
      rw [List.mem_singleton] at he
      subst he
      exact Nat.zero_le j
    · exact List.sorted_singleton _
    · intro e he e0 h0
      rw [List.mem_singleton] at he
      subst he
      exact Nat.zero_le _
    · intro e he
      rw [List.mem_singleton] at he
      subst he
      exact List.mem_singleton.mpr rfl
    · intro v hv
      rw [List.mem_singleton] at hv
      subst hv
      left
      simp [entry_cells]
  refine ⟨?_, ?_, ?_⟩
  · intro hst
    unfold find_path
    rw [if_pos hst]
  · intro hst d hreach hmin
    constructor
    · intro hdm
      have hne : bfs_loop g t m (g.length * g.length + 2) [(s, [])] [s] ≠ [] := by
        refine bfs_loop_complete g s t m d hreach hmin hdm _ _ _ inv0 ?_ ?_
        · intro htv
          rw [List.mem_singleton] at htv
          exact absurd htv.symm hst
        · unfold bfs_measure
          have hc := in_card_le g.length [s]
          simp only [List.length_singleton]
          omega
      obtain ⟨p, heq, hchain, hlt, hrp, hminp⟩ :=
        bfs_loop_sound g t s m (g.length * g.length + 2) [(s, [])] [s] inv0 hne
      have h1 := hminp d hreach
      have h2 := hmin p.length hrp
      refine ⟨p, ?_, hchain, by omega⟩
      unfold find_path
      rw [if_neg hst]
      exact heq
    · intro hmd
      unfold find_path
      rw [if_neg hst]
      by_contra hne
      obtain ⟨p, heq, hchain, hlt, hrp, hminp⟩ :=
        bfs_loop_sound g t s m (g.length * g.length + 2) [(s, [])] [s] inv0 hne
      have h2 := hmin p.length hrp
      omega
  · intro hunreach
    have hst : s ≠ t := by
      intro h
      exact hunreach 0 (by rw [h]; exact Reaches.refl)
    unfold find_path
    rw [if_neg hst]
    by_contra hne
    obtain ⟨p, heq, hchain, hlt, hrp, hminp⟩ :=
      bfs_loop_sound g t s m (g.length * g.length + 2) [(s, [])] [s] inv0 hne
    exact hunreach p.length hrp

/-- Witness for C1 on the concrete 2-by-2 all-path grid: the adjacent
pair has hop count 1 and budget 5, and the returned chain has one cell
before the target. -/
theorem find_path_shortest_correct_witness :
    ∃ p : List Cell, find_path cx_grid2 (0, 0) (1, 0) 5 = p ++ [(1, 0)] ∧
      ChainFrom cx_grid2 (0, 0) (p ++ [(1, 0)]) ∧ p.length = 1 := by
  have hreach : Reaches cx_grid2 (0, 0) 1 (1, 0) :=
    Reaches.tail Reaches.refl ⟨⟨(1, 0), by decide, rfl⟩, by decide, by decide⟩
  have hmin : ∀ j, Reaches cx_grid2 (0, 0) j (1, 0) → 1 ≤ j := by
    intro j hj
    cases j with
    | zero => exact absurd (reaches_zero hj) (by decide)
    | succ j => omega
  exact ((find_path_shortest_correct cx_grid2 (0, 0) (1, 0) 5).2.1 (by decide)
    1 hreach hmin).1 (by omega)

/-- C1 counterexample on the 2-by-2 all-path grid: the minimal hop count
from (0,0) to (1,0) is 1, yet with max_steps = 1 (a connecting path of at
most max_steps hops exists) find_path returns the empty sequence, and
with an ample budget the returned sequence has length 2, not the hop
count 1. -/
theorem find_path_budget_cx :
    Reaches cx_grid2 (0, 0) 1 (1, 0) ∧
    (∀ j, Reaches cx_grid2 (0, 0) j (1, 0) → 1 ≤ j) ∧
    find_path cx_grid2 (0, 0) (1, 0) 1 = [] ∧
    find_path cx_grid2 (0, 0) (1, 0) 5 = [(0, 0), (1, 0)] ∧
    (find_path cx_grid2 (0, 0) (1, 0) 5).length = 2 := by
  refine ⟨?_, ?_, ?_, ?_, ?_⟩
  · exact Reaches.tail Reaches.refl ⟨⟨(1, 0), by decide, rfl⟩, by decide,
      by decide⟩
  · intro j hj
    cases j with
    | zero => exact absurd (reaches_zero hj) (by decide)
    | succ j => omega
  · decide
  · decide
  · decide

end IsoCity
